import Mathlib

/-!
Verification development for the KGoT retrieval-support subsystem:
the text browsing engine (kgot/tools/tools_v2_3/Browser.py) and the
document-to-text conversion pipeline (kgot/tools/tools_v2_3/MdConverter.py).

Strings are modelled as lists of characters (`Str`).  External library
calls (pdfminer, mammoth, pandas, pptx, networking, ...) are modelled as
abstract outcomes carried by the file/response/world models; everything
the repository's own code does (dispatch, fallback, normalization,
pagination, search) is translated directly from the source.
-/

namespace KGoT

abbrev Str := List Char

/-- ASCII whitespace stripped by Python str.strip / str.rstrip. -/
def pySpace (c : Char) : Bool :=
  c == ' ' || c == '\t' || c == '\n' || c == '\r' || c == '\x0b' || c == '\x0c'

/-- Python str.rstrip(). -/
def rstrip (s : Str) : Str := (s.reverse.dropWhile pySpace).reverse

/-- Python str.lstrip(). -/
def lstrip (s : Str) : Str := s.dropWhile pySpace

/-- Python str.strip(). -/
def stripStr (s : Str) : Str := lstrip (rstrip s)

/-- Python str.lower() (ASCII model). -/
def lowerStr (s : Str) : Str := s.map Char.toLower

/-- Python regex word character \w (ASCII model): alphanumeric or underscore. -/
def isWordChar (c : Char) : Bool := c.isAlphanum || c == '_'

/-- Maximal runs of word characters of a string, in order.  Joining these
runs with single spaces models Python " ".join(re.split(r"\W+", s)).strip(). -/
def wordRunsAux : Str → Str → List Str
  | [], acc => if acc.isEmpty then [] else [acc.reverse]
  | c :: rest, acc =>
    if isWordChar c then wordRunsAux rest (c :: acc)
    else if acc.isEmpty then wordRunsAux rest []
    else acc.reverse :: wordRunsAux rest []

def wordRuns (s : Str) : List Str := wordRunsAux s []

/-- Python s[a:b] for 0 ≤ a ≤ b (slicing clamps to the length). -/
def sliceStr (s : Str) (a b : Nat) : Str := (s.take b).drop a

/-- Python str.replace(pat, rep): left-to-right, non-overlapping.  The
fuel argument is structural bookkeeping only: each step consumes at least
one input character, so t.length fuel is always enough. -/
def replaceAllGo (pat rep : Str) : Nat → Str → Str
  | _, [] => []
  | 0, t => t
  | fuel + 1, c :: rest =>
    if pat ≠ [] ∧ pat.isPrefixOf (c :: rest) then
      rep ++ replaceAllGo pat rep fuel ((c :: rest).drop pat.length)
    else c :: replaceAllGo pat rep fuel rest

def replaceAll (pat rep t : Str) : Str := replaceAllGo pat rep t.length t

/-- Suffix following the first occurrence of pat, if pat occurs (models
finding the leftmost regex match of a literal pattern). -/
def splitFirst (pat : Str) : Str → Option Str
  | [] => if pat.isPrefixOf ([] : Str) then some [] else none
  | c :: rest =>
    if pat.isPrefixOf (c :: rest) then some ((c :: rest).drop pat.length)
    else splitFirst pat rest

/-- re.search for a pattern that is a sequence of literal segments joined
by ".\*": the segments must occur left to right without overlap. -/
def seqContains : List Str → Str → Bool
  | [], _ => true
  | p :: ps, t =>
    match splitFirst p t with
    | none => false
    | some rest => seqContains ps rest

/-- Split on a literal pattern, left-to-right and non-overlapping.  As in
replaceAllGo, t.length fuel is always enough. -/
def splitOnPatGo (pat : Str) : Nat → Str → Str → List Str
  | _, [], acc => [acc.reverse]
  | 0, t, acc => [acc.reverse ++ t]
  | fuel + 1, c :: rest, acc =>
    if pat ≠ [] ∧ pat.isPrefixOf (c :: rest) then
      acc.reverse :: splitOnPatGo pat fuel ((c :: rest).drop pat.length) []
    else splitOnPatGo pat fuel rest (c :: acc)

def splitOnPat (pat : Str) (t : Str) : List Str := splitOnPatGo pat t.length t []

/-- Python re.split(r"\r?\n", s): split at each "\r\n" or "\n". -/
def splitLinesAux : Str → Str → List Str
  | [], acc => [acc.reverse]
  | [c], acc => if c = '\n' then [acc.reverse, []] else [(c :: acc).reverse]
  | c :: d :: rest, acc =>
    if c = '\r' ∧ d = '\n' then acc.reverse :: splitLinesAux rest []
    else if c = '\n' then acc.reverse :: splitLinesAux (d :: rest) []
    else splitLinesAux (d :: rest) (c :: acc)

def splitLines (s : Str) : List Str := splitLinesAux s []

/-- Python "\n".join. -/
def joinNL : List Str → Str
  | [] => []
  | [l] => l
  | l :: l2 :: ls => l ++ '\n' :: joinNL (l2 :: ls)

/-- Python " ".join. -/
def joinSp : List Str → Str
  | [] => []
  | [l] => l
  | l :: l2 :: ls => l ++ ' ' :: joinSp (l2 :: ls)

/-- Python re.sub(r"\n{3,}", "\n\n", s): every maximal run of three or
more newlines collapses to exactly two.  pending counts newlines read but
not yet emitted. -/
def collapseNLAux : Nat → Str → Str
  | pending, [] => List.replicate (min pending 2) '\n'
  | pending, c :: rest =>
    if c = '\n' then collapseNLAux (pending + 1) rest
    else List.replicate (min pending 2) '\n' ++ c :: collapseNLAux 0 rest

def collapseNL (s : Str) : Str := collapseNLAux 0 s

/-- The output normalization applied by MarkdownConverter._convert when a
converter in the loop returns a result: rstrip every line (split on
\r?\n, rejoined with \n), then collapse runs of 3+ newlines to 2. -/
def normalizeText (s : Str) : Str :=
  collapseNL (joinNL ((splitLines s).map rstrip))

/-- Scanner: some position starts three consecutive newline characters,
i.e. the text contains a run of three or more blank-line separators. -/
def startsNN : Str → Bool
  | d :: e :: _ => d == '\n' && e == '\n'
  | _ => false

def hasRun3 : Str → Bool
  | [] => false
  | c :: rest => (c == '\n' && startsNN rest) || hasRun3 rest

/-- c ends a line with trailing whitespace: c is whitespace other than the
newline itself and is immediately followed by a newline or by the end of
the text. -/
def badEnd (c : Char) (rest : Str) : Bool :=
  pySpace c && !(c == '\n') &&
    (match rest.head? with
     | none => true
     | some d => d == '\n')

/-- Scanner: some line of the text ends in trailing whitespace. -/
def hasTrailWS : Str → Bool
  | [] => false
  | c :: rest => badEnd c rest || hasTrailWS rest

/-- Shorthand for writing character-list strings. -/
def S (s : String) : Str := s.toList

/-! ## Conversion pipeline (MdConverter.py) -/

/-- DocumentConverterResult: the result of converting a document to text. -/
structure DocumentConverterResult where
  title : Option Str
  text_content : Str
  deriving DecidableEq

/-- Outcome of one converter invocation: decline (return None), succeed
(return a result), or raise an exception. -/
inductive ConvOutcome where
  | declined
  | ok (r : DocumentConverterResult)
  | err
  deriving DecidableEq

/-- Model of a local file together with the outcomes of the external
format-parsing libraries on it (ElementTree, youtube transcripts, mammoth,
pandas, pptx, pdfminer, whisper, BeautifulSoup/markdownify).  readText is
the result of opening the file in text mode and reading it: some text, or
none when the file cannot be read as text. -/
structure FileModel where
  readText : Option Str
  xmlBody : ConvOutcome
  youtubeBody : ConvOutcome
  docxBody : ConvOutcome
  xlsxBody : ConvOutcome
  pptxBody : ConvOutcome
  pdfBody : ConvOutcome
  audioBody : ConvOutcome
  htmlBody : ConvOutcome
  deriving DecidableEq

/-- The value of the file_extension entry of a kwargs dict:
none = key absent, some none = explicit None, some (some s) = a string. -/
abbrev ExtArg := Option (Option Str)

/-- Shared gate of the extension-gated converters:
kwargs.get("file_extension", "") followed by an extension.lower()
membership test.  An explicit None raises (None.lower()); an absent key
yields "" which is never in a gate list. -/
def gatedConvert (gateExts : List Str) (body : ConvOutcome) (ext : ExtArg) : ConvOutcome :=
  match ext with
  | none => .declined
  | some none => .err
  | some (some e) => if lowerStr e ∈ gateExts then body else .declined

/-- open(local_path, "rt").read() wrapped as a converter body. -/
def readAsText (fm : FileModel) : ConvOutcome :=
  match fm.readText with
  | some t => .ok ⟨none, t⟩
  | none => .err

/-- PlainTextConverter.convert: declines when extension == "" (so also
when the key is absent); an explicit None slips past the equality test
and the file is read. -/
def plainTextConverter (ext : ExtArg) (_url : Option Str) (fm : FileModel) : ConvOutcome :=
  match ext with
  | none => .declined
  | some none => readAsText fm
  | some (some e) => if e = [] then .declined else readAsText fm

def htmlConverter (ext : ExtArg) (_url : Option Str) (fm : FileModel) : ConvOutcome :=
  gatedConvert [S ".html", S ".htm"] fm.htmlBody ext

/-- YouTubeConverter.convert: gated on the extension and on the url
kwarg (default "") starting with the watch-page address. -/
def youTubeConverter (ext : ExtArg) (url : Option Str) (fm : FileModel) : ConvOutcome :=
  match ext with
  | none => .declined
  | some none => .err
  | some (some e) =>
    if lowerStr e ∈ [S ".html", S ".htm"] then
      if (S "https://www.youtube.com/watch?").isPrefixOf (url.getD []) then fm.youtubeBody
      else .declined
    else .declined

def pdfConverter (ext : ExtArg) (_url : Option Str) (fm : FileModel) : ConvOutcome :=
  gatedConvert [S ".pdf"] fm.pdfBody ext

def docxConverter (ext : ExtArg) (_url : Option Str) (fm : FileModel) : ConvOutcome :=
  gatedConvert [S ".docx"] fm.docxBody ext

def xlsxConverter (ext : ExtArg) (_url : Option Str) (fm : FileModel) : ConvOutcome :=
  gatedConvert [S ".xlsx", S ".xls"] fm.xlsxBody ext

def pptxConverter (ext : ExtArg) (_url : Option Str) (fm : FileModel) : ConvOutcome :=
  gatedConvert [S ".pptx"] fm.pptxBody ext

def xmlConverter (ext : ExtArg) (_url : Option Str) (fm : FileModel) : ConvOutcome :=
  gatedConvert [S ".xml"] fm.xmlBody ext

def audioConverter (ext : ExtArg) (_url : Option Str) (fm : FileModel) : ConvOutcome :=
  gatedConvert [S ".wav", S ".mp3", S ".flac", S ".m4a"] fm.audioBody ext

/-- MarkdownConverter.__init__ registration order (the audio converter is
registered either with or without usage statistics; its gate and body are
the same in this model). -/
def pageConverters : List (ExtArg → Option Str → FileModel → ConvOutcome) :=
  [xmlConverter, youTubeConverter, docxConverter, xlsxConverter,
   pptxConverter, pdfConverter, audioConverter, htmlConverter, plainTextConverter]

/-- Exceptions crossing the layer boundaries. -/
inductive PyError where
  | fileConversionExc (exts : List Str)  -- FileConversionException, carrying the attempted extensions
  | unsupportedFormatExc
  | fileNotFound
  | requestExc
  | attributeError                       -- e.g. NoneType has no attribute ...
  | decodeError                          -- exception reading the file as text
  | outOfFuel                            -- artificial: models a non-terminating run
  deriving DecidableEq

/-- Inner loop of MarkdownConverter._convert for one candidate extension:
try each registered converter in registration order; the first result wins
and is normalized; a raised exception sets the error trace and the loop
continues. -/
def runExtConverters (fm : FileModel) (url : Option Str) (ext : Str) :
    List (ExtArg → Option Str → FileModel → ConvOutcome) → Bool →
    Option DocumentConverterResult × Bool
  | [], errFlag => (none, errFlag)
  | conv :: rest, errFlag =>
    match conv (some (some ext)) url fm with
    | .ok r => (some { r with text_content := normalizeText r.text_content }, errFlag)
    | .err => runExtConverters fm url ext rest true
    | .declined => runExtConverters fm url ext rest errFlag

/-- Outer loop of MarkdownConverter._convert over the candidate extensions. -/
def runLoop (fm : FileModel) (url : Option Str) :
    List Str → Bool → Option DocumentConverterResult × Bool
  | [], errFlag => (none, errFlag)
  | ext :: rest, errFlag =>
    match runExtConverters fm url ext pageConverters errFlag with
    | (some r, f) => (some r, f)
    | (none, f) => runLoop fm url rest f

/-- MarkdownConverter._convert: run the converter loop; on exhaustion raise
FileConversionException when an error trace was recorded, otherwise invoke
PlainTextConverter directly with the original kwargs (whose file_extension
entry is fbExt) and return its result unnormalized. -/
def _convert (fm : FileModel) (url : Option Str) (extensions : List Str)
    (fbExt : ExtArg) : Except PyError (Option DocumentConverterResult) :=
  match runLoop fm url extensions false with
  | (some r, _) => .ok (some r)
  | (none, true) => .error (.fileConversionExc extensions)
  | (none, false) =>
    match plainTextConverter fbExt url fm with
    | .declined => .ok none
    | .ok r => .ok (some r)
    | .err => .error .decodeError

/-- MarkdownConverter._append_ext: append a stripped non-None non-empty
extension; duplicates are kept (the dedup test is disabled in the source). -/
def _append_ext (extensions : List Str) (ext : Option Str) : List Str :=
  match ext with
  | none => extensions
  | some e =>
    let e2 := stripStr e
    if e2 = [] then extensions else extensions ++ [e2]

/-- The kwargs reaching the conversion entry points: possible
file_extension and url entries (the encoding entry is folded into
FileModel.readText). -/
structure Kwargs where
  file_extension : ExtArg := none
  url : Option Str := none
  deriving DecidableEq

/-- A local path: its os.path.splitext extension, the puremagic guess for
the file at it (None also covers the swallowed FileNotFound, IsADirectory
and Permission errors), and the file itself. -/
structure PathModel where
  pathExt : Str
  magicGuess : Option Str
  file : FileModel
  deriving DecidableEq

/-- An HTTP response: its final url and the extension sources read from it
by convert_response, plus the downloaded body saved as a temporary file. -/
structure RespModel where
  url : Str
  ctypeExt : Option Str     -- mimetypes.guess_extension of the content-type
  cdispExt : Option Str     -- extension of a content-disposition filename, when the regex matched
  urlPathExt : Str          -- os.path.splitext of urlparse(url).path
  magicGuess : Option Str   -- puremagic on the downloaded temporary file
  file : FileModel
  deriving DecidableEq

/-- Candidate-extension list built by MarkdownConverter.convert_local. -/
def localExtList (pm : PathModel) (kw : Kwargs) : List Str :=
  let extensions : List Str :=
    match kw.file_extension with
    | some (some s) => [s]
    | _ => []
  let extensions := _append_ext extensions (some pm.pathExt)
  _append_ext extensions pm.magicGuess

/-- Candidate-extension list built by MarkdownConverter.convert_response. -/
def responseExtList (r : RespModel) (kw : Kwargs) : List Str :=
  let extensions : List Str :=
    match kw.file_extension with
    | some (some s) => [s]
    | _ => []
  let extensions := _append_ext extensions r.ctypeExt
  let extensions := _append_ext extensions r.cdispExt
  let extensions := _append_ext extensions (some r.urlPathExt)
  _append_ext extensions r.magicGuess

/-- MarkdownConverter.convert_local: the original kwargs (including any
file_extension entry) are passed through to _convert. -/
def convert_local (pm : PathModel) (kw : Kwargs) :
    Except PyError (Option DocumentConverterResult) :=
  _convert pm.file kw.url (localExtList pm kw) kw.file_extension

/-- MarkdownConverter.convert_response: _convert receives only url and
encoding as kwargs, so its fallback sees no file_extension entry.  The
temporary file bookkeeping has no observable effect here. -/
def convert_response (r : RespModel) (kw : Kwargs) :
    Except PyError (Option DocumentConverterResult) :=
  _convert r.file (some r.url) (responseExtList r kw) none

/-- The argument of MarkdownConverter.convert: a string (with the oracle
data for both readings: as a local path, and as a url whose successful
fetch yields the given response), an HTTP response object, or any other
object. -/
inductive MCSource where
  | str (s : Str) (asLocal : PathModel) (asUrl : RespModel)
  | response (r : RespModel)
  | other

/-- MarkdownConverter.convert: dispatch on the argument type and, for
strings, on the scheme.  An argument that is neither a string nor a
response falls through both isinstance tests and Python returns None. -/
def convert (source : MCSource) (kw : Kwargs) :
    Except PyError (Option DocumentConverterResult) :=
  match source with
  | .str s asLocal asUrl =>
    if (S "http://").isPrefixOf s || (S "https://").isPrefixOf s
        || (S "file://").isPrefixOf s then
      convert_response asUrl kw
    else convert_local asLocal kw
  | .response r => convert_response r kw
  | .other => .ok none

/-! ## Text browser (Browser.py) -/

/-- The whitespace characters at which _split_pages lets a viewport end. -/
def splitWS (c : Char) : Bool := c == ' ' || c == '\t' || c == '\r' || c == '\n'

/-- SimpleTextBrowser state.  The fields find_on_page_query and
find_on_page_viewport model the attributes of those names that
set_address creates (distinct from the underscore-prefixed search state
read by find_on_page / find_next); none means the attribute does not
exist yet. -/
structure BrowserState where
  history : List (Str × Nat)
  page_title : Option Str
  viewport_size : Nat
  viewport_current_page : Nat
  viewport_pages : List (Nat × Nat)
  _page_content : Str
  _find_on_page_query : Option Str
  _find_on_page_last_result : Option Nat
  find_on_page_query : Option (Option Str)
  find_on_page_viewport : Option (Option Nat)
  deriving DecidableEq

/-- Browser.address property: first component of the last history entry. -/
def address (st : BrowserState) : Str :=
  ((st.history.getLast?).map Prod.fst).getD []

/-- Inner while of _split_pages: advance end_idx until the character
before it is whitespace or the end of the content is reached.  The fuel
is structural bookkeeping; content.length + 1 is always enough since the
index stops growing at the content length. -/
def extendIdxGo (content : Str) : Nat → Nat → Nat
  | 0, e => e
  | fuel + 1, e =>
    if e < content.length ∧ splitWS (content.getD (e - 1) ' ') = false then
      extendIdxGo content fuel (e + 1)
    else e

def extendIdx (content : Str) (e : Nat) : Nat :=
  extendIdxGo content (content.length + 1) e

/-- Outer while of _split_pages, with fuel.  The source loop does not
terminate when viewport_size = 0 and the content ends in whitespace; all
theorems assume viewport_size ≥ 1, where this fuel is sufficient. -/
def splitWalk (content : Str) (vs : Nat) : Nat → Nat → List (Nat × Nat)
  | _start, 0 => []
  | start, fuel + 1 =>
    if start < content.length then
      (start, extendIdx content (min (start + vs) content.length)) ::
        splitWalk content vs (extendIdx content (min (start + vs) content.length)) fuel
    else []

/-- SimpleTextBrowser._split_pages. -/
def _split_pages (st : BrowserState) : BrowserState :=
  if (S "google:").isPrefixOf (address st) then
    { st with viewport_pages := [(0, st._page_content.length)] }
  else if st._page_content.length = 0 then
    { st with viewport_pages := [(0, 0)] }
  else
    let pages := splitWalk st._page_content st.viewport_size 0 (st._page_content.length + 1)
    { st with viewport_pages := pages }

/-- SimpleTextBrowser._set_page_content. -/
def _set_page_content (st : BrowserState) (content : Str) : BrowserState :=
  let st1 := _split_pages { st with _page_content := content }
  if st1.viewport_pages.length ≤ st1.viewport_current_page then
    { st1 with viewport_current_page := st1.viewport_pages.length - 1 }
  else st1

/-- SimpleTextBrowser.page_down. -/
def page_down (st : BrowserState) : BrowserState :=
  let np := min (st.viewport_current_page + 1) (st.viewport_pages.length - 1)
  { st with viewport_current_page := np }

/-- SimpleTextBrowser.page_up (Python max(x - 1, 0) is Nat subtraction). -/
def page_up (st : BrowserState) : BrowserState :=
  { st with viewport_current_page := st.viewport_current_page - 1 }

/-- Browser.viewport property (the bounds are in range whenever the C9
invariant holds; out of range Python would raise, modelled by getD). -/
def viewport (st : BrowserState) : Str :=
  let bounds := st.viewport_pages.getD st.viewport_current_page (0, 0)
  sliceStr st._page_content bounds.1 bounds.2

/-- Query normalization performed by _find_next_viewport. -/
def normQuery (q : Str) : Str :=
  let n1 := replaceAll (S "*") (S "__STAR__") q
  let n2 := ' ' :: (joinSp (wordRuns n1) ++ [' '])
  let n3 := replaceAll (S " __STAR__ ") (S "__STAR__ ") n2
  lowerStr (replaceAll (S "__STAR__") (S ".*") n3)

/-- Viewport-content normalization performed by _find_next_viewport. -/
def normContent (c : Str) : Str :=
  ' ' :: (lowerStr (joinSp (wordRuns c)) ++ [' '])

/-- re.search of the normalized query against normalized viewport content:
the query splits at ".\*" into literal segments matched left to right. -/
def queryHits (nquery : Str) (content : Str) : Bool :=
  seqContains (splitOnPat (S ".*") nquery) (normContent content)

/-- Whether viewport i of st matches the normalized query nq. -/
def viewportHit (st : BrowserState) (nq : Str) (i : Nat) : Bool :=
  let bounds := st.viewport_pages.getD i (0, 0)
  queryHits nq (sliceStr st._page_content bounds.1 bounds.2)

/-- The index sequence searched by _find_next_viewport: from the starting
viewport to the end, then from the beginning. -/
def rotIdxs (start n : Nat) : List Nat :=
  List.range' start (n - start) ++ List.range start

/-- SimpleTextBrowser._find_next_viewport. -/
def _find_next_viewport (st : BrowserState) (query : Option Str)
    (startingViewport : Nat) : Option Nat :=
  match query with
  | none => none
  | some q =>
    if stripStr (normQuery q) = [] then none
    else (rotIdxs startingViewport st.viewport_pages.length).find?
        (viewportHit st (normQuery q))

/-- Shared tail of find_on_page and find_next: update the state from the
search outcome and return the matched viewport's content, if any. -/
def applyFindResult (st : BrowserState) : Option Nat → BrowserState × Option Str
  | none => ({ st with _find_on_page_last_result := none }, none)
  | some i =>
    ({ st with viewport_current_page := i, _find_on_page_last_result := some i },
      some (viewport { st with viewport_current_page := i, _find_on_page_last_result := some i }))

/-- The starting viewport used by find_next: one past the last result,
wrapping to 0 (or 0 when there is no last result). -/
def findNextStart (st : BrowserState) : Nat :=
  match st._find_on_page_last_result with
  | none => 0
  | some r => if st.viewport_pages.length ≤ r + 1 then 0 else r + 1

/-- SimpleTextBrowser.find_next. -/
def find_next (st : BrowserState) : BrowserState × Option Str :=
  match st._find_on_page_query with
  | none => (st, none)
  | some q => applyFindResult st (_find_next_viewport st (some q) (findNextStart st))

/-- SimpleTextBrowser.find_on_page. -/
def find_on_page (st : BrowserState) (query : Str) : BrowserState × Option Str :=
  if st._find_on_page_query = some query ∧
      st._find_on_page_last_result = some st.viewport_current_page then
    find_next st
  else
    applyFindResult { st with _find_on_page_query := some query }
      (_find_next_viewport { st with _find_on_page_query := some query } (some query)
        st.viewport_current_page)

/-- The states reached by find_on_page(q) followed by k calls of find_next. -/
def findSeq (st : BrowserState) (q : Str) : Nat → BrowserState × Option Str
  | 0 => find_on_page st q
  | k + 1 => find_next (findSeq st q k).1

/-- The viewports of st matching query q, in forward-with-wraparound
order from the current viewport: the traversal order of find/find_next. -/
def matchCycle (st : BrowserState) (q : Str) : List Nat :=
  (rotIdxs st.viewport_current_page st.viewport_pages.length).filter
    (viewportHit st (normQuery q))

/-- The browser state mid-traversal: query q recorded, current viewport
and last result both at v. -/
def stAt (st : BrowserState) (q : Str) (v : Nat) : BrowserState :=
  { st with
      viewport_current_page := v
      _find_on_page_query := some q
      _find_on_page_last_result := some v }

/-- Outcome of an HTTP GET as observed by _fetch_page. -/
inductive HttpCase where
  | textPage (r : RespModel)            -- content-type containing "text/"
  | download                            -- other content-type: save, then revisit as a file:// uri
  | reqErrorNoResp (content : Str)      -- requests.get raised; the handler hits NameError and renders this page
  | reqErrorResp (title content : Str)  -- raise_for_status raised; the rendered error page

/-- The external world: relative-uri resolution, the filesystem reachable
through file:// uris, HTTP, the search-backend page rendering, and the
local uri a download is saved at.  Search-result and transport-error page
texts are world-supplied strings because no claim inspects them. -/
structure World where
  urljoin : Str → Str → Str
  fileAt : Str → PathModel
  http : Str → HttpCase
  searchTitle : Str → Str
  searchContent : Str → Str
  downloadUri : Str → Str
  localPathOf : Str → Str

/-- The except clauses of _fetch_page: UnsupportedFormatException and
FileConversionException render a download-complete page when a
download_path was set and an error page otherwise; FileNotFoundError
renders an Error 404 page; any other exception propagates (no handler
matches it). -/
def handleFetchError (st : BrowserState) (e : PyError) (download_path : Str) :
    BrowserState × Option PyError :=
  match e with
  | .unsupportedFormatExc =>
    if download_path ≠ [] then
      (_set_page_content { st with page_title := some (S "Download complete.") }
        (S "# Download complete\n\nSaved file to " ++ download_path), none)
    else
      (_set_page_content { st with page_title := some (S "Error") } (S "## Error"), none)
  | .fileConversionExc _ =>
    if download_path ≠ [] then
      (_set_page_content { st with page_title := some (S "Download complete.") }
        (S "# Download complete\n\nSaved file to " ++ download_path), none)
    else
      (_set_page_content { st with page_title := some (S "Error") } (S "## Error"), none)
  | .fileNotFound =>
    (_set_page_content { st with page_title := some (S "Error 404") }
      (S "## Error 404\n\nFile not found: " ++ download_path), none)
  | _ => (st, some e)

/-- SimpleTextBrowser._searxng_search: every branch (results, no results,
retry, transport failure, unexpected exception) assigns a title and calls
_set_page_content; the rendered text is world-supplied since no claim
inspects it. -/
def _searxng_search (w : World) (st : BrowserState) (query : Str)
    (_filter_year : Option Nat) : BrowserState :=
  _set_page_content { st with page_title := some (w.searchTitle query) }
    (w.searchContent query)

/-- The file:// branch of _fetch_page: download_path is the local path,
set before conversion, so conversion failures here render a
download-complete page; when convert_local returns None, reading
res.title raises an AttributeError that no handler catches. -/
def fetchLocalFile (w : World) (st : BrowserState) (url : Str) :
    BrowserState × Option PyError :=
  match convert_local (w.fileAt (w.localPathOf url)) {} with
  | .ok (some res) =>
    (_set_page_content { st with page_title := res.title } res.text_content, none)
  | .ok none => (st, some .attributeError)
  | .error e => handleFetchError st e (w.localPathOf url)

/-- The text-content branch of _fetch_page: download_path stays "". -/
def fetchTextPage (st : BrowserState) (r : RespModel) : BrowserState × Option PyError :=
  match convert_response r {} with
  | .ok (some res) =>
    (_set_page_content { st with page_title := res.title } res.text_content, none)
  | .ok none => (st, some .attributeError)
  | .error e => handleFetchError st e []

def fetchPageBody (w : World)
    (recurSetAddress : BrowserState → Str → BrowserState × Option PyError)
    (st : BrowserState) (url : Str) : BrowserState × Option PyError :=
  if (S "file://").isPrefixOf url then fetchLocalFile w st url
  else
    match w.http url with
    | .textPage r => fetchTextPage st r
    | .download => recurSetAddress st (w.downloadUri url)
    | .reqErrorNoResp content =>
      (_set_page_content { st with page_title := some (S "Error") } content, none)
    | .reqErrorResp title content =>
      (_set_page_content { st with page_title := some title } content, none)

/-- Appending the visited uri to the history, as set_address does first. -/
def histAppend (st : BrowserState) (uri : Str) : BrowserState :=
  { st with history := st.history ++ [(uri, 0)] }

/-- The resolved form of a scheme-less uri: urljoin of the previous
history entry's address with it (st1 already carries the new entry). -/
def resolvedUri (w : World) (st1 : BrowserState) (uri : Str) : Str :=
  w.urljoin (((st1.history.dropLast.getLast?).map Prod.fst).getD []) uri

/-- The branch dispatch of set_address, after the history append: handle
about:blank, the google: search scheme, relative resolution (rewriting
the last history entry), and the page fetch. -/
def setAddressStep (w : World)
    (recurSetAddress : BrowserState → Str → BrowserState × Option PyError)
    (st1 : BrowserState) (uri_or_path : Str) (filter_year : Option Nat) :
    BrowserState × Option PyError :=
  if uri_or_path = S "about:blank" then
    (_set_page_content st1 [], none)
  else if (S "google:").isPrefixOf uri_or_path then
    (_searxng_search w st1 (stripStr (uri_or_path.drop (S "google:").length)) filter_year,
      none)
  else if (!(S "http:").isPrefixOf uri_or_path && !(S "https:").isPrefixOf uri_or_path
      && !(S "file:").isPrefixOf uri_or_path) ∧ 1 < st1.history.length then
    fetchPageBody w recurSetAddress
      { st1 with history := st1.history.dropLast ++ [(resolvedUri w st1 uri_or_path, 0)] }
      (resolvedUri w st1 uri_or_path)
  else
    fetchPageBody w recurSetAddress st1 uri_or_path

/-- Body of SimpleTextBrowser.set_address, parameterized like
fetchPageBody: append to history, dispatch on the scheme, then - only
when no exception propagated - reset the viewport index to 0 and assign
the (unused, non-underscore) find_on_page_query / find_on_page_viewport
attributes to None. -/
def setAddressBody (w : World)
    (recurSetAddress : BrowserState → Str → BrowserState × Option PyError)
    (st : BrowserState) (uri_or_path : Str) (filter_year : Option Nat) :
    BrowserState × Option PyError :=
  match setAddressStep w recurSetAddress (histAppend st uri_or_path) uri_or_path
      filter_year with
  | (st3, some e) => (st3, some e)
  | (st3, none) =>
    ({ st3 with
        viewport_current_page := 0
        find_on_page_query := some none
        find_on_page_viewport := some none }, none)

/-- SimpleTextBrowser.set_address.  The fuel bounds the recursion depth
through the download branch (at most two levels arise in practice: a
download re-navigates to a file:// uri, which does not recurse again). -/
def set_address (w : World) : Nat → BrowserState → Str → Option Nat →
    BrowserState × Option PyError
  | 0, st, uri_or_path, filter_year =>
    setAddressBody w (fun st2 _u => (st2, some .outOfFuel)) st uri_or_path filter_year
  | fuel + 1, st, uri_or_path, filter_year =>
    setAddressBody w (fun st2 u => set_address w fuel st2 u none) st uri_or_path filter_year

/-- SimpleTextBrowser._fetch_page, with the same fuel discipline. -/
def _fetch_page (w : World) (fuel : Nat) (st : BrowserState) (url : Str) :
    BrowserState × Option PyError :=
  match fuel with
  | 0 => fetchPageBody w (fun st2 _u => (st2, some .outOfFuel)) st url
  | f + 1 => fetchPageBody w (fun st2 u => set_address w f st2 u none) st url

/-- SimpleTextBrowser.visit_page: set the address and return the content
of the current viewport; when set_address propagates an exception no
string is returned. -/
def visit_page (w : World) (fuel : Nat) (st : BrowserState) (uri : Str)
    (filter_year : Option Nat) : BrowserState × Option PyError × Option Str :=
  match set_address w fuel st uri filter_year with
  | (st1, none) => (st1, none, some (viewport st1))
  | (st1, some e) => (st1, some e, none)

/-- SimpleTextBrowser.__init__.  During the constructor's set_address call
the _mdconvert and request_kwargs attributes do not exist yet: a file://
or http(s) start page raises AttributeError inside _fetch_page (caught by
no handler), while a google: start page raises it inside _searxng_search,
whose generic handler renders a search-error page.  After set_address,
__init__ overwrites _page_content with "" (without re-splitting) and
initializes the underscore search-state attributes. -/
def startPageOf (start_page : Option Str) : Str :=
  match start_page with
  | none => S "about:blank"
  | some s => if s = [] then S "about:blank" else s

/-- The browser state right after the field initializations preceding the
constructor's set_address call. -/
def initialBrowserState (vs : Nat) : BrowserState :=
  { history := [], page_title := none, viewport_size := vs,
    viewport_current_page := 0, viewport_pages := [], _page_content := [],
    _find_on_page_query := none, _find_on_page_last_result := none,
    find_on_page_query := none, find_on_page_viewport := none }

/-- The constructor's set_address call, with the missing-attribute
behavior described on constructBrowser. -/
def constructStep (w : World) (fuel : Nat) (sp : Str) (vs : Nat) :
    BrowserState × Option PyError :=
  if sp = S "about:blank" then set_address w fuel (initialBrowserState vs) sp none
  else if (S "google:").isPrefixOf sp then
    ({ (_set_page_content
          { initialBrowserState vs with
              history := [(sp, 0)], page_title := some (S "Search Error") }
          (S "## Search Error\n\nUnexpected error during search")) with
        viewport_current_page := 0
        find_on_page_query := some none
        find_on_page_viewport := some none }, none)
  else ({ initialBrowserState vs with history := [(sp, 0)] }, some .attributeError)

def constructBrowser (w : World) (fuel : Nat) (start_page : Option Str) (vs : Nat) :
    BrowserState × Option PyError :=
  match constructStep w fuel (startPageOf start_page) vs with
  | (st1, some e) => (st1, some e)
  | (st1, none) =>
    ({ st1 with
        _page_content := []
        _find_on_page_query := none
        _find_on_page_last_result := none }, none)

/-- Boolean check that a viewport list tiles the interval from cur up to
total contiguously: each start equals the running position, ends chain,
and the final end equals total. -/
def contigFrom : Nat → Nat → List (Nat × Nat) → Bool
  | cur, total, [] => cur == total
  | cur, total, (a, b) :: rest => a == cur && contigFrom b total rest

/-- The C9 invariant: the viewport list is non-empty and the current
viewport index is in range, so reading the viewport property succeeds. -/
def Inv (st : BrowserState) : Prop :=
  st.viewport_pages ≠ [] ∧ st.viewport_current_page < st.viewport_pages.length

/-- Modelled from the spec (claim C5): the candidate-extension order the
spec asserts for a response - caller-supplied explicit extension, path
extension, content-disposition extension, content-type extension, magic
guess.  Written from the spec sentence, to be compared with
responseExtList. -/
def claimedResponseExtList (r : RespModel) (kw : Kwargs) : List Str :=
  let extensions : List Str :=
    match kw.file_extension with
    | some (some s) => [s]
    | _ => []
  let extensions := _append_ext extensions (some r.urlPathExt)
  let extensions := _append_ext extensions r.cdispExt
  let extensions := _append_ext extensions r.ctypeExt
  _append_ext extensions r.magicGuess

instance {ε α : Type} [DecidableEq ε] [DecidableEq α] : DecidableEq (Except ε α) :=
  fun x y =>
    match x, y with
    | .ok a, .ok b =>
      if h : a = b then .isTrue (h ▸ rfl) else .isFalse (fun hh => h (Except.ok.inj hh))
    | .error a, .error b =>
      if h : a = b then .isTrue (h ▸ rfl) else .isFalse (fun hh => h (Except.error.inj hh))
    | .ok _, .error _ => .isFalse (fun hh => Except.noConfusion hh)
    | .error _, .ok _ => .isFalse (fun hh => Except.noConfusion hh)

/-! ## Concrete fixtures used in counterexamples and witnesses -/

/-- A file readable as text on which every external format library
declines (their gates never fire in the scenarios using it). -/
def fmText (t : Str) : FileModel :=
  { readText := some t, xmlBody := .declined, youtubeBody := .declined,
    docxBody := .declined, xlsxBody := .declined, pptxBody := .declined,
    pdfBody := .declined, audioBody := .declined, htmlBody := .declined }

/-- A file that cannot be read as text and on which every external format
library raises. -/
def fmBad : FileModel :=
  { readText := none, xmlBody := .err, youtubeBody := .err,
    docxBody := .err, xlsxBody := .err, pptxBody := .err,
    pdfBody := .err, audioBody := .err, htmlBody := .err }

/-- A readable extension-less local file: no path extension, no magic
guess. -/
def pmNoExt : PathModel := { pathExt := [], magicGuess := none, file := fmText (S "hi") }

/-- Like pmNoExt but with content carrying trailing whitespace and a run
of four newlines. -/
def pmMessy : PathModel :=
  { pathExt := [], magicGuess := none, file := fmText (S "a \n\n\n\nb") }

/-- An unreadable local file with an .xml path extension: the XML library
and the plain-text read both raise, every other converter declines. -/
def pmXmlBad : PathModel := { pathExt := S ".xml", magicGuess := none, file := fmBad }

/-- A response exposing all five extension sources, pairwise distinct. -/
def respAll : RespModel :=
  { url := S "http://h/p.d", ctypeExt := some (S ".b"), cdispExt := some (S ".c"),
    urlPathExt := S ".d", magicGuess := some (S ".e"), file := fmText (S "x") }

/-- A response whose content-type and magic extensions duplicate the
explicit one. -/
def respDup : RespModel :=
  { url := S "http://h/p.d", ctypeExt := some (S ".x"), cdispExt := some (S ".c"),
    urlPathExt := S ".d", magicGuess := some (S ".x"), file := fmText (S "x") }

/-- A local path duplicating the explicit extension via magic. -/
def pmDup : PathModel := { pathExt := S ".d", magicGuess := some (S ".x"), file := fmText (S "x") }

/-- A plain-text response for the C1 scenario: content-type text/plain
(so mimetypes yields ".txt") with body "foo x". -/
def respFooPage : RespModel :=
  { url := S "http://b", ctypeExt := some (S ".txt"), cdispExt := none,
    urlPathExt := [], magicGuess := none, file := fmText (S "foo x") }

/-- World fixture: every http fetch yields the plain-text foo page and
every file:// uri resolves to the readable extension-less file. -/
def wFix : World :=
  { urljoin := fun _ b => b, fileAt := fun _ => pmNoExt,
    http := fun _ => .textPage respFooPage,
    searchTitle := fun q => q, searchContent := fun q => q,
    downloadUri := fun u => u, localPathOf := fun u => u }

/-- Browser state as after visiting a page whose content is "foo bar". -/
def stFooBar : BrowserState :=
  { history := [(S "http://a", 0)], page_title := none, viewport_size := 100,
    viewport_current_page := 0, viewport_pages := [(0, 7)],
    _page_content := S "foo bar", _find_on_page_query := none,
    _find_on_page_last_result := none, find_on_page_query := none,
    find_on_page_viewport := none }

/-- Browser state for exercising pagination: content "aaaa bbbb cc" with
viewport size 3 and a non-search address. -/
def stWalkFix : BrowserState :=
  { history := [(S "http://a", 0)], page_title := none, viewport_size := 3,
    viewport_current_page := 0, viewport_pages := [],
    _page_content := S "aaaa bbbb cc", _find_on_page_query := none,
    _find_on_page_last_result := none, find_on_page_query := none,
    find_on_page_viewport := none }

/-- Browser state for the find-traversal witness: three viewports of
"foo x bar y foo z", of which the first and third match "foo", with the
middle one current. -/
def stFind7 : BrowserState :=
  { history := [(S "http://a", 0)], page_title := none, viewport_size := 6,
    viewport_current_page := 1, viewport_pages := [(0, 6), (6, 12), (12, 17)],
    _page_content := S "foo x bar y foo z", _find_on_page_query := none,
    _find_on_page_last_result := none, find_on_page_query := none,
    find_on_page_viewport := none }

/-- Browser state as freshly constructed on about:blank. -/
def stBlank : BrowserState :=
  { history := [(S "about:blank", 0)], page_title := none, viewport_size := 8192,
    viewport_current_page := 0, viewport_pages := [(0, 0)], _page_content := [],
    _find_on_page_query := none, _find_on_page_last_result := none,
    find_on_page_query := some none, find_on_page_viewport := some none }

/-! ## Theorems -/

/-- C10: for every input that is neither a string (path or url) nor an
HTTP response object, MarkdownConverter.convert returns no result (Python
falls through both isinstance tests and returns None) rather than raising
or attempting a conversion. -/
theorem C10_convert_other_absent (kw : Kwargs) :
    convert MCSource.other kw = .ok none := rfl

/-- C5 counterexample: for the response respAll with explicit hint ".a",
convert_response builds [".a", ".b", ".c", ".d", ".e"] - explicit,
content-type, content-disposition, url-path, magic - which differs from
the order the claim asserts (explicit, path, disposition, content-type,
magic), as written down in claimedResponseExtList. -/
theorem C5_counterexample :
    responseExtList respAll { file_extension := some (some (S ".a")) } =
      [S ".a", S ".b", S ".c", S ".d", S ".e"] ∧
    claimedResponseExtList respAll { file_extension := some (some (S ".a")) } =
      [S ".a", S ".d", S ".c", S ".b", S ".e"] ∧
    responseExtList respAll { file_extension := some (some (S ".a")) } ≠
      claimedResponseExtList respAll { file_extension := some (some (S ".a")) } := by
  refine ⟨by decide, by decide, by decide⟩

/-- C5 amended: the candidate extension list is built by appending
whichever sources are present, in the code's priority order - for a
response: caller-supplied explicit extension, content-type extension,
content-disposition extension, URL-path extension, magic guess; for a
local path: explicit extension, path extension, magic guess.  Appended
entries are stripped, empty entries are skipped, and duplicates are
preserved. -/
theorem C5_amended_order (r : RespModel) (pm : PathModel) (kw : Kwargs)
    (e b c m q : Str)
    (hkw : kw.file_extension = some (some e))
    (hb : r.ctypeExt = some b) (hbs : stripStr b ≠ [])
    (hc : r.cdispExt = some c) (hcs : stripStr c ≠ [])
    (hds : stripStr r.urlPathExt ≠ [])
    (hm : r.magicGuess = some m) (hms : stripStr m ≠ [])
    (hps : stripStr pm.pathExt ≠ [])
    (hq : pm.magicGuess = some q) (hqs : stripStr q ≠ []) :
    responseExtList r kw =
      [e, stripStr b, stripStr c, stripStr r.urlPathExt, stripStr m] ∧
    localExtList pm kw = [e, stripStr pm.pathExt, stripStr q] := by
  constructor
  · simp [responseExtList, _append_ext, hkw, hb, hc, hm, hbs, hcs, hds, hms]
  · simp [localExtList, _append_ext, hkw, hq, hps, hqs]

/-- Witness for C5: concrete response and path whose content-type and
magic extensions duplicate the explicit ".x" hint; the duplicates are
preserved in the built lists. -/
theorem C5_amended_order_witness :
    responseExtList respDup { file_extension := some (some (S ".x")) } =
      [S ".x", S ".x", S ".c", S ".d", S ".x"] ∧
    localExtList pmDup { file_extension := some (some (S ".x")) } =
      [S ".x", S ".d", S ".x"] := by
  have h := C5_amended_order respDup pmDup { file_extension := some (some (S ".x")) }
    (S ".x") (S ".x") (S ".c") (S ".x") (S ".x")
    rfl rfl (by decide) rfl (by decide) (by decide) rfl (by decide) (by decide) rfl (by decide)
  exact ⟨h.1.trans (by decide), h.2.trans (by decide)⟩

/-- C2 counterexample: for the readable extension-less file pmNoExt every
registered converter declines on every candidate extension (the candidate
list is empty), yet convert_local returns no result instead of the raw
text decode "hi" - the final plain-text invocation does not ignore
extension gating.  For pmXmlBad (unreadable, .xml path extension) every
pair declines or fails, and the call raises a conversion error instead of
not failing. -/
theorem C2_counterexample :
    convert_local pmNoExt {} = .ok none ∧
    (Except.ok (some ⟨none, S "hi"⟩) :
        Except PyError (Option DocumentConverterResult)) ≠ .ok none ∧
    convert_local pmXmlBad {} = .error (.fileConversionExc [S ".xml"]) := by
  refine ⟨by decide, by decide, by decide⟩

/-- When every converter declines on an extension, the inner loop returns
no result and leaves the error trace unchanged. -/
theorem runExtConverters_all_declined (fm : FileModel) (url : Option Str) (ext : Str)
    (convs : List (ExtArg → Option Str → FileModel → ConvOutcome)) (flag : Bool)
    (h : ∀ conv ∈ convs, conv (some (some ext)) url fm = .declined) :
    runExtConverters fm url ext convs flag = (none, flag) := by
  induction convs with
  | nil => rfl
  | cons cv cvs ih =>
    have hcv := h cv (by simp)
    have hrest : ∀ conv ∈ cvs, conv (some (some ext)) url fm = .declined := by
      intro conv hm2
      exact h conv (by simp [hm2])
    simp [runExtConverters, hcv, ih hrest]

/-- When every converter declines on every candidate extension, the outer
loop exhausts with no result and no error trace. -/
theorem runLoop_all_declined (fm : FileModel) (url : Option Str) (exts : List Str)
    (h : ∀ ext ∈ exts, ∀ conv ∈ pageConverters, conv (some (some ext)) url fm = .declined) :
    runLoop fm url exts false = (none, false) := by
  induction exts with
  | nil => rfl
  | cons ext rest ih =>
    have h1 := runExtConverters_all_declined fm url ext pageConverters false
      (h ext (by simp))
    have hrest : ∀ e2 ∈ rest, ∀ conv ∈ pageConverters,
        conv (some (some e2)) url fm = .declined := by
      intro e2 hm2
      exact h e2 (by simp [hm2])
    simp [runLoop, h1, ih hrest]

/-- C2 amended: when every registered converter declines (without
raising) on every candidate extension, _convert does not raise from the
dispatch loop; it makes one final invocation of the plain-text converter
with the call's original kwargs.  That invocation still applies the
extension gate: it returns the raw text decode of the file only when the
original kwargs carry a usable file_extension entry, returns no result
when the entry is absent or empty, and raises a decode error only when
the gate passes and the file cannot be read as text.  (When some
converter raised instead of declining, _convert raises a conversion
error, as C2_counterexample shows.) -/
theorem C2_amended_fallback (fm : FileModel) (url : Option Str) (exts : List Str)
    (fbExt : ExtArg)
    (hdecl : ∀ ext ∈ exts, ∀ conv ∈ pageConverters,
      conv (some (some ext)) url fm = .declined) :
    _convert fm url exts fbExt =
      (match plainTextConverter fbExt url fm with
       | .declined => .ok none
       | .ok r => .ok (some r)
       | .err => .error .decodeError) := by
  unfold _convert
  rw [runLoop_all_declined fm url exts hdecl]

/-- Witness for C2: an empty-string candidate list on which all nine
converters decline; the fallback with an explicit ".txt" hint returns the
raw text decode. -/
theorem C2_amended_fallback_witness :
    _convert (fmText (S "a")) none [[]] (some (some (S ".txt"))) = .ok (some ⟨none, S "a"⟩) := by
  have hdecl : ∀ ext ∈ [([] : Str)], ∀ conv ∈ pageConverters,
      conv (some (some ext)) none (fmText (S "a")) = .declined := by
    intro ext hext conv hconv
    simp only [List.mem_singleton] at hext
    subst hext
    simp only [pageConverters, List.mem_cons, List.mem_singleton, List.not_mem_nil,
      or_false] at hconv
    rcases hconv with h | h | h | h | h | h | h | h | h <;> subst h <;> rfl
  have h := C2_amended_fallback (fmText (S "a")) none [[]] (some (some (S ".txt"))) hdecl
  exact h.trans (by decide)

/-- C4 counterexample: a conversion call that returns a result through
the last-resort plain-text fallback (explicit None file_extension slips
past the gate; empty candidate list): the returned text keeps its
trailing whitespace and its run of four newlines - normalization is not
applied on this successful path. -/
theorem C4_counterexample :
    convert_local pmMessy { file_extension := some none } =
      .ok (some ⟨none, S "a \n\n\n\nb"⟩) ∧
    hasTrailWS (S "a \n\n\n\nb") = true ∧ hasRun3 (S "a \n\n\n\nb") = true := by
  refine ⟨by decide, by decide, by decide⟩

/-! Normalization lemmas for C4. -/

theorem startsNN_cons_of_ne (c : Char) (hc : (c == '\n') = false) (t : Str) :
    startsNN (c :: t) = false := by
  cases t <;> simp [startsNN, hc]

theorem hasRun3_cons_ne (c : Char) (hc : (c == '\n') = false) (t : Str) :
    hasRun3 (c :: t) = hasRun3 t := by
  simp [hasRun3, hc]

theorem hasRun3_nl_cons (t : Str) : hasRun3 ('\n' :: t) = (startsNN t || hasRun3 t) := by
  simp [hasRun3]

theorem startsNN_cons_cons (d e : Char) (t : Str) :
    startsNN (d :: e :: t) = (d == '\n' && e == '\n') := rfl

theorem hasRun3_replicate_le_two (k : Nat) (hk : k ≤ 2) :
    hasRun3 (List.replicate k '\n') = false := by
  interval_cases k <;> decide

theorem hasRun3_collapseNLAux (s : Str) : ∀ p, hasRun3 (collapseNLAux p s) = false := by
  induction s with
  | nil =>
    intro p
    rw [collapseNLAux]
    exact hasRun3_replicate_le_two _ (by omega)
  | cons c rest ih =>
    intro p
    by_cases hc : c = '\n'
    · rw [collapseNLAux, if_pos hc]
      exact ih (p + 1)
    · have hcb : (c == '\n') = false := by simp [hc]
      rw [collapseNLAux, if_neg hc]
      have hm : min p 2 = 0 ∨ min p 2 = 1 ∨ min p 2 = 2 := by omega
      rcases hm with h | h | h <;>
        simp [h, hasRun3_nl_cons, hasRun3_cons_ne c hcb, startsNN_cons_of_ne c hcb,
          startsNN_cons_cons, hcb, ih 0]

theorem badEnd_nl (t : Str) : badEnd '\n' t = false := by
  simp [badEnd]

theorem collapse_head_pos (s : Str) : ∀ p, 1 ≤ p → (collapseNLAux p s).head? = some '\n' := by
  induction s with
  | nil =>
    intro p hp
    rw [collapseNLAux]
    have hm : min p 2 = 1 ∨ min p 2 = 2 := by omega
    rcases hm with h | h <;> simp [h]
  | cons c rest ih =>
    intro p hp
    by_cases hc : c = '\n'
    · rw [collapseNLAux, if_pos hc]
      exact ih (p + 1) (by omega)
    · rw [collapseNLAux, if_neg hc]
      have hm : min p 2 = 1 ∨ min p 2 = 2 := by omega
      rcases hm with h | h <;> simp [h]

theorem collapse_head_zero (s : Str) : (collapseNLAux 0 s).head? = s.head? := by
  cases s with
  | nil => rfl
  | cons c rest =>
    by_cases hc : c = '\n'
    · rw [collapseNLAux, if_pos hc, collapse_head_pos rest 1 (by omega), hc]
      rfl
    · rw [collapseNLAux, if_neg hc]
      simp

theorem hasTrailWS_collapseNLAux (s : Str) :
    ∀ p, hasTrailWS s = false → hasTrailWS (collapseNLAux p s) = false := by
  induction s with
  | nil =>
    intro p _
    rw [collapseNLAux]
    have hm : min p 2 = 0 ∨ min p 2 = 1 ∨ min p 2 = 2 := by omega
    rcases hm with h | h | h <;> simp [h] <;> decide
  | cons c rest ih =>
    intro p h
    have h2 : badEnd c rest = false ∧ hasTrailWS rest = false := by
      have := h
      simp only [hasTrailWS, Bool.or_eq_false_iff] at this
      exact this
    by_cases hc : c = '\n'
    · rw [collapseNLAux, if_pos hc]
      exact ih (p + 1) h2.2
    · rw [collapseNLAux, if_neg hc]
      have hbe : badEnd c (collapseNLAux 0 rest) = false := by
        unfold badEnd at h2 ⊢
        rw [collapse_head_zero rest]
        exact h2.1
      have hm : min p 2 = 0 ∨ min p 2 = 1 ∨ min p 2 = 2 := by omega
      rcases hm with h3 | h3 | h3 <;>
        simp [h3, hasTrailWS, badEnd_nl, hbe, ih 0 h2.2]

theorem head_dropWhile_not (p : Char → Bool) (xs : Str) (a : Char)
    (h : (xs.dropWhile p).head? = some a) : p a = false := by
  induction xs with
  | nil => simp [List.dropWhile] at h
  | cons x xs ih =>
    rw [List.dropWhile_cons] at h
    by_cases hx : p x = true
    · rw [if_pos hx] at h
      exact ih h
    · rw [if_neg hx] at h
      simp at h
      subst h
      simpa using hx

theorem rstrip_getLast (l : Str) (ch : Char) (h : (rstrip l).getLast? = some ch) :
    pySpace ch = false := by
  unfold rstrip at h
  rw [List.getLast?_reverse] at h
  exact head_dropWhile_not pySpace l.reverse ch h

theorem mem_rstrip (l : Str) (c : Char) (h : c ∈ rstrip l) : c ∈ l := by
  unfold rstrip at h
  rw [List.mem_reverse] at h
  exact List.mem_reverse.mp ((List.dropWhile_sublist pySpace).mem h)

theorem splitLinesAux_no_nl (s : Str) :
    ∀ acc : Str, '\n' ∉ acc → ∀ l ∈ splitLinesAux s acc, '\n' ∉ l :=
  match s with
  | [] => by
    intro acc hacc l hl
    simp only [splitLinesAux, List.mem_singleton] at hl
    subst hl
    simpa using hacc
  | [c] => by
    intro acc hacc l hl
    rw [splitLinesAux] at hl
    by_cases hc : c = '\n'
    · rw [if_pos hc] at hl
      simp only [List.mem_cons, List.mem_singleton, List.not_mem_nil, or_false] at hl
      rcases hl with hl | hl
      · subst hl
        simpa using hacc
      · subst hl
        simp
    · rw [if_neg hc] at hl
      simp only [List.mem_singleton] at hl
      subst hl
      simp only [List.mem_reverse, List.mem_cons]
      rintro (h | h)
      · exact hc h.symm
      · exact hacc h
  | c :: d :: rest => by
    intro acc hacc l hl
    rw [splitLinesAux] at hl
    by_cases h1 : c = '\r' ∧ d = '\n'
    · rw [if_pos h1] at hl
      rcases List.mem_cons.mp hl with hl | hl
      · subst hl
        simpa using hacc
      · exact splitLinesAux_no_nl rest [] (by simp) l hl
    · rw [if_neg h1] at hl
      by_cases h2 : c = '\n'
      · rw [if_pos h2] at hl
        rcases List.mem_cons.mp hl with hl | hl
        · subst hl
          simpa using hacc
        · exact splitLinesAux_no_nl (d :: rest) [] (by simp) l hl
      · rw [if_neg h2] at hl
        refine splitLinesAux_no_nl (d :: rest) (c :: acc) ?_ l hl
        simp only [List.mem_cons]
        rintro (h | h)
        · exact h2 h.symm
        · exact hacc h

theorem hasTrailWS_line_append (l : Str) :
    ∀ s : Str, '\n' ∉ l → (∀ ch, l.getLast? = some ch → pySpace ch = false) →
      hasTrailWS s = false → hasTrailWS (l ++ s) = false := by
  induction l with
  | nil => intro s _ _ hs; simpa using hs
  | cons c l2 ih =>
    intro s hnl hlast hs
    have hc : c ≠ '\n' := fun h => hnl (by simp [h])
    have htail : hasTrailWS (l2 ++ s) = false := by
      cases l2 with
      | nil =>
        simpa using hs
      | cons d l3 =>
        refine ih s (fun h => hnl (by simp [h])) ?_ hs
        intro ch hch
        exact hlast ch (by rw [List.getLast?_cons_cons]; exact hch)
    have hbe : badEnd c (l2 ++ s) = false := by
      cases l2 with
      | nil =>
        have hplast : pySpace c = false := hlast c (by simp)
        simp [badEnd, hplast]
      | cons d l3 =>
        have hd : d ≠ '\n' := fun h => hnl (by simp [h])
        simp [badEnd, hd]
    show (badEnd c (l2 ++ s) || hasTrailWS (l2 ++ s)) = false
    rw [hbe, htail]
    rfl

theorem hasTrailWS_joinNL :
    ∀ lines : List Str,
      (∀ l ∈ lines, '\n' ∉ l ∧ ∀ ch, l.getLast? = some ch → pySpace ch = false) →
      hasTrailWS (joinNL lines) = false := by
  intro lines
  induction lines with
  | nil => intro _; rfl
  | cons l ls ih =>
    intro h
    cases ls with
    | nil =>
      have h1 := h l (by simp)
      have := hasTrailWS_line_append l [] h1.1 h1.2 rfl
      simpa using this
    | cons l2 ls2 =>
      have h1 := h l (by simp)
      have hrest : hasTrailWS (joinNL (l2 :: ls2)) = false := by
        refine ih ?_
        intro l3 hl3
        exact h l3 (by simp [hl3])
      show hasTrailWS (l ++ '\n' :: joinNL (l2 :: ls2)) = false
      refine hasTrailWS_line_append l _ h1.1 h1.2 ?_
      show (badEnd '\n' (joinNL (l2 :: ls2)) || hasTrailWS (joinNL (l2 :: ls2))) = false
      rw [badEnd_nl, hrest]
      rfl

/-- The normalization of MarkdownConverter._convert leaves no line with
trailing whitespace and no run of three or more newlines. -/
theorem normalizeText_clean (s : Str) :
    hasTrailWS (normalizeText s) = false ∧ hasRun3 (normalizeText s) = false := by
  constructor
  · unfold normalizeText collapseNL
    refine hasTrailWS_collapseNLAux _ 0 ?_
    refine hasTrailWS_joinNL _ ?_
    intro l hl
    obtain ⟨l0, hl0, rfl⟩ := List.mem_map.mp hl
    constructor
    · intro hmem
      exact splitLinesAux_no_nl s [] (by simp) l0 hl0 (mem_rstrip l0 '\n' hmem)
    · exact rstrip_getLast l0
  · exact hasRun3_collapseNLAux _ 0

/-- A result produced by the inner converter loop has normalized text. -/
theorem runExtConverters_some_normalized (fm : FileModel) (url : Option Str) (ext : Str)
    (convs : List (ExtArg → Option Str → FileModel → ConvOutcome)) (flag : Bool)
    (r : DocumentConverterResult)
    (h : (runExtConverters fm url ext convs flag).1 = some r) :
    ∃ s, r.text_content = normalizeText s := by
  induction convs generalizing flag with
  | nil => simp [runExtConverters] at h
  | cons cv cvs ih =>
    rw [runExtConverters] at h
    rcases hcv : cv (some (some ext)) url fm with _ | r0 | _ <;> rw [hcv] at h
    · exact ih flag h
    · simp at h
      exact ⟨r0.text_content, by rw [← h]⟩
    · exact ih true h

/-- A result produced by the outer converter loop has normalized text. -/
theorem runLoop_some_normalized (fm : FileModel) (url : Option Str) (exts : List Str)
    (flag : Bool) (r : DocumentConverterResult)
    (h : (runLoop fm url exts flag).1 = some r) :
    ∃ s, r.text_content = normalizeText s := by
  induction exts generalizing flag with
  | nil => simp [runLoop] at h
  | cons ext rest ih =>
    rw [runLoop] at h
    rcases hr : runExtConverters fm url ext pageConverters flag with ⟨o, f⟩
    rw [hr] at h
    cases o with
    | some r0 =>
      have hr0 : r0 = r := by simpa using h
      subst hr0
      exact runExtConverters_some_normalized fm url ext pageConverters flag r0 (by rw [hr])
    | none => exact ih f h

/-- C4 amended: every result returned through the converter dispatch loop
is normalized - no line of its text has trailing whitespace and its text
has no run of three or more newlines - and _convert returns it as-is.
(The last-resort plain-text fallback is exempt: C4_counterexample shows a
fallback result that violates both properties.) -/
theorem C4_amended_loop_normalized (fm : FileModel) (url : Option Str) (exts : List Str)
    (fbExt : ExtArg) (r : DocumentConverterResult)
    (h : (runLoop fm url exts false).1 = some r) :
    _convert fm url exts fbExt = .ok (some r) ∧
    hasTrailWS r.text_content = false ∧ hasRun3 r.text_content = false := by
  obtain ⟨s0, hs0⟩ := runLoop_some_normalized fm url exts false r h
  refine ⟨?_, ?_, ?_⟩
  · unfold _convert
    rcases hr : runLoop fm url exts false with ⟨o, f⟩
    rw [hr] at h
    cases o with
    | some r0 =>
      have hr0 : r0 = r := by simpa using h
      subst hr0
      rfl
    | none => simp at h
  · rw [hs0]; exact (normalizeText_clean s0).1
  · rw [hs0]; exact (normalizeText_clean s0).2

/-- Witness for C4: a clean one-character text converted through the loop
via a ".txt" candidate. -/
theorem C4_amended_loop_normalized_witness :
    _convert (fmText (S "x")) none [S ".txt"] none = .ok (some ⟨none, S "x"⟩) ∧
    hasTrailWS (S "x") = false ∧ hasRun3 (S "x") = false :=
  C4_amended_loop_normalized (fmText (S "x")) none [S ".txt"] none ⟨none, S "x"⟩ (by decide)

/-! Lemmas for C3. -/

/-- With an empty-string candidate extension every registered converter
declines: the gates compare against non-empty dotted extensions and the
plain-text converter refuses "". -/
theorem pageConverters_decline_empty (url : Option Str) (fm : FileModel) :
    ∀ conv ∈ pageConverters, conv (some (some [])) url fm = .declined := by
  intro conv hconv
  simp only [pageConverters, List.mem_cons, List.not_mem_nil, or_false] at hconv
  rcases hconv with h | h | h | h | h | h | h | h | h <;> subst h <;> rfl

theorem readAsText_readable (fm : FileModel) (t : Str) (h : fm.readText = some t) :
    readAsText fm = .ok ⟨none, t⟩ := by
  unfold readAsText
  rw [h]

theorem plainTextConverter_someSome (url : Option Str) (fm : FileModel) (s : Str) :
    plainTextConverter (some (some s)) url fm =
      if s = [] then .declined else readAsText fm := rfl

/-- The plain-text converter succeeds on any non-empty extension hint
when the file is readable as text. -/
theorem plainText_ok_readable (url : Option Str) (fm : FileModel) (ext : Str) (t : Str)
    (hread : fm.readText = some t) (hne : ext ≠ []) :
    plainTextConverter (some (some ext)) url fm = .ok ⟨none, t⟩ := by
  rw [plainTextConverter_someSome, if_neg hne, readAsText_readable fm t hread]

/-- The plain-text converter raises only when the file cannot be read as
text. -/
theorem plainText_err_unreadable (fbExt : ExtArg) (url : Option Str) (fm : FileModel)
    (h : plainTextConverter fbExt url fm = .err) : fm.readText = none := by
  rcases hrt : fm.readText with _ | t
  · rfl
  · exfalso
    rcases fbExt with _ | (_ | s)
    · exact ConvOutcome.noConfusion h
    · rw [show plainTextConverter (some none) url fm = readAsText fm from rfl,
        readAsText_readable fm t hrt] at h
      exact ConvOutcome.noConfusion h
    · rw [plainTextConverter_someSome] at h
      by_cases hs : s = []
      · rw [if_pos hs] at h
        exact ConvOutcome.noConfusion h
      · rw [if_neg hs, readAsText_readable fm t hrt] at h
        exact ConvOutcome.noConfusion h

/-- If the last converter of the chain succeeds, the inner loop produces
a result whatever the earlier converters do. -/
theorem runExtConverters_last_ok (fm : FileModel) (url : Option Str) (ext : Str)
    (r0 : DocumentConverterResult)
    (hPT : plainTextConverter (some (some ext)) url fm = .ok r0) :
    ∀ (cs : List (ExtArg → Option Str → FileModel → ConvOutcome)) (flag : Bool),
      ∃ r f, runExtConverters fm url ext (cs ++ [plainTextConverter]) flag = (some r, f) := by
  intro cs
  induction cs with
  | nil =>
    intro flag
    refine ⟨{ r0 with text_content := normalizeText r0.text_content }, flag, ?_⟩
    rw [List.nil_append, runExtConverters, hPT]
  | cons cv cvs ih =>
    intro flag
    rw [List.cons_append, runExtConverters]
    rcases hcv : cv (some (some ext)) url fm with _ | r1 | _
    · exact ih flag
    · exact ⟨{ r1 with text_content := normalizeText r1.text_content }, flag, rfl⟩
    · exact ih true

/-- With a readable file, the outer loop either skips every candidate
(all empty strings) leaving the trace flag unchanged, or succeeds. -/
theorem runLoop_readable (fm : FileModel) (url : Option Str) (t : Str)
    (hread : fm.readText = some t) :
    ∀ (exts : List Str) (flag : Bool),
      runLoop fm url exts flag = (none, flag) ∨
      ∃ r f, runLoop fm url exts flag = (some r, f) := by
  intro exts
  induction exts with
  | nil => intro flag; exact Or.inl rfl
  | cons ext rest ih =>
    intro flag
    by_cases he : ext = []
    · subst he
      have h1 := runExtConverters_all_declined fm url [] pageConverters flag
        (pageConverters_decline_empty url fm)
      rcases ih flag with h2 | ⟨r, f, h2⟩
      · refine Or.inl ?_
        rw [runLoop, h1]
        exact h2
      · refine Or.inr ⟨r, f, ?_⟩
        rw [runLoop, h1]
        exact h2
    · obtain ⟨r, f, hr⟩ := runExtConverters_last_ok fm url ext ⟨none, t⟩
        (plainText_ok_readable url fm ext t hread he)
        [xmlConverter, youTubeConverter, docxConverter, xlsxConverter,
         pptxConverter, pdfConverter, audioConverter, htmlConverter] flag
      refine Or.inr ⟨r, f, ?_⟩
      rw [runLoop, show pageConverters =
        [xmlConverter, youTubeConverter, docxConverter, xlsxConverter, pptxConverter,
         pdfConverter, audioConverter, htmlConverter] ++ [plainTextConverter] from rfl,
        hr]

/-- C3: an error raised by an individual converter only feeds the error
trace and the engine continues; a file readable as text never yields a
fatal conversion error (the call returns a result or the absent marker);
and when the call does fail, the file was unreadable and the error is
either the FileConversionException carrying the attempted extension list
or the decode error of the final plain-text read. -/
theorem C3_error_recovery (fm : FileModel) (url : Option Str) (exts : List Str)
    (fbExt : ExtArg) :
    ((∃ t, fm.readText = some t) → ∃ r, _convert fm url exts fbExt = .ok r) ∧
    (∀ e, _convert fm url exts fbExt = .error e →
      fm.readText = none ∧ (e = .fileConversionExc exts ∨ e = .decodeError)) := by
  constructor
  · rintro ⟨t, ht⟩
    rcases runLoop_readable fm url t ht exts false with h | ⟨r, f, h⟩
    · unfold _convert
      rw [h]
      rcases hpt : plainTextConverter fbExt url fm with _ | r0 | _
      · exact ⟨none, rfl⟩
      · exact ⟨some r0, rfl⟩
      · rw [plainText_err_unreadable fbExt url fm hpt] at ht
        cases ht
    · exact ⟨some r, by unfold _convert; rw [h]⟩
  · intro e he
    unfold _convert at he
    rcases hloop : runLoop fm url exts false with ⟨o, f⟩
    rw [hloop] at he
    cases o with
    | some r => simp at he
    | none =>
      cases f with
      | true =>
        have hunread : fm.readText = none := by
          rcases hrt : fm.readText with _ | t
          · rfl
          · exfalso
            rcases runLoop_readable fm url t hrt exts false with h2 | ⟨r, f2, h2⟩ <;>
              rw [hloop] at h2 <;> simp at h2
        have he2 : e = PyError.fileConversionExc exts := by
          have := he
          simp at this
          exact this.symm
        exact ⟨hunread, Or.inl he2⟩
      | false =>
        rcases hpt : plainTextConverter fbExt url fm with _ | r0 | _ <;> rw [hpt] at he
        · simp at he
        · simp at he
        · have he2 : e = PyError.decodeError := by
            have := he
            simp at this
            exact this.symm
          exact ⟨plainText_err_unreadable fbExt url fm hpt, Or.inr he2⟩

/-- Witness for C3: the PDF library raises on the ".pdf" candidate, yet
the readable file still converts (the plain-text converter, tried last on
the same candidate, succeeds). -/
theorem C3_error_recovery_witness :
    ∃ r, _convert { fmText (S "x") with pdfBody := ConvOutcome.err }
      none [S ".pdf"] none = .ok r :=
  (C3_error_recovery { fmText (S "x") with pdfBody := ConvOutcome.err }
    none [S ".pdf"] none).1 ⟨S "x", rfl⟩

/-! Lemmas for C6 and C9 (pagination). -/

theorem extendIdxGo_ge (content : Str) : ∀ fuel e, e ≤ extendIdxGo content fuel e := by
  intro fuel
  induction fuel with
  | zero => intro e; exact le_refl e
  | succ f ih =>
    intro e
    rw [extendIdxGo]
    split
    · exact le_trans (by omega) (ih (e + 1))
    · exact le_refl e

theorem extendIdxGo_le (content : Str) :
    ∀ fuel e, e ≤ content.length → extendIdxGo content fuel e ≤ content.length := by
  intro fuel
  induction fuel with
  | zero => intro e he; exact he
  | succ f ih =>
    intro e he
    rw [extendIdxGo]
    by_cases hc : e < content.length ∧ splitWS (content.getD (e - 1) ' ') = false
    · rw [if_pos hc]
      exact ih (e + 1) (by omega)
    · rw [if_neg hc]
      exact he

theorem extendIdxGo_stop (content : Str) :
    ∀ fuel e, content.length < fuel + e →
      extendIdxGo content fuel e < content.length →
      splitWS (content.getD (extendIdxGo content fuel e - 1) ' ') = true := by
  intro fuel
  induction fuel with
  | zero =>
    intro e hf h
    rw [extendIdxGo] at h
    omega
  | succ f ih =>
    intro e hf h
    rw [extendIdxGo] at h ⊢
    by_cases hc : e < content.length ∧ splitWS (content.getD (e - 1) ' ') = false
    · rw [if_pos hc] at h ⊢
      exact ih (e + 1) (by omega) h
    · rw [if_neg hc] at h ⊢
      rcases Bool.eq_false_or_eq_true (splitWS (content.getD (e - 1) ' ')) with hb | hb
      · exact hb
      · exact absurd ⟨h, hb⟩ hc

theorem extendIdx_ge (content : Str) (e : Nat) : e ≤ extendIdx content e :=
  extendIdxGo_ge content (content.length + 1) e

theorem extendIdx_le (content : Str) (e : Nat) (h : e ≤ content.length) :
    extendIdx content e ≤ content.length :=
  extendIdxGo_le content (content.length + 1) e h

theorem extendIdx_stop (content : Str) (e : Nat)
    (h : extendIdx content e < content.length) :
    splitWS (content.getD (extendIdx content e - 1) ' ') = true :=
  extendIdxGo_stop content (content.length + 1) e (by omega) h

theorem splitWalk_stop (content : Str) (vs start fuel : Nat)
    (h : content.length ≤ start) : splitWalk content vs start fuel = [] := by
  cases fuel with
  | zero => rfl
  | succ f => rw [splitWalk, if_neg (by omega)]

theorem splitWalk_spec (content : Str) (vs : Nat) (hvs : 1 ≤ vs) :
    ∀ fuel start, start < content.length → content.length - start < fuel →
      contigFrom start content.length (splitWalk content vs start fuel) = true ∧
      splitWalk content vs start fuel ≠ [] ∧
      (∀ k, k + 1 < (splitWalk content vs start fuel).length →
        ((splitWalk content vs start fuel).getD k (0, 0)).2 < content.length ∧
        splitWS (content.getD
          (((splitWalk content vs start fuel).getD k (0, 0)).2 - 1) ' ') = true) := by
  intro fuel
  induction fuel with
  | zero => intro start h1 h2; omega
  | succ f ih =>
    intro start h1 h2
    rw [splitWalk, if_pos h1]
    have hge : start + 1 ≤ extendIdx content (min (start + vs) content.length) := by
      have := extendIdx_ge content (min (start + vs) content.length)
      omega
    have hle : extendIdx content (min (start + vs) content.length) ≤ content.length :=
      extendIdx_le content _ (by omega)
    by_cases hel : extendIdx content (min (start + vs) content.length) = content.length
    · rw [hel, splitWalk_stop content vs content.length f (le_refl _)]
      refine ⟨?_, by simp, ?_⟩
      · simp [contigFrom]
      · intro k hk
        simp at hk
    · have helt : extendIdx content (min (start + vs) content.length) < content.length := by
        omega
      obtain ⟨ih1, ih2, ih3⟩ := ih (extendIdx content (min (start + vs) content.length))
        helt (by omega)
      refine ⟨?_, by simp, ?_⟩
      · simp [contigFrom, ih1]
      · intro k hk
        cases k with
        | zero =>
          refine ⟨by simpa using helt, ?_⟩
          simpa using extendIdx_stop content (min (start + vs) content.length) helt
        | succ k2 =>
          have hk2 : k2 + 1 < (splitWalk content vs
              (extendIdx content (min (start + vs) content.length)) f).length := by
            simpa using hk
          simpa using ih3 k2 hk2

/-- C6: for every page text set on a non-search address (with a positive
viewport size), the computed viewports are a contiguous partition of the
text from offset 0 to its length; every viewport boundary other than the
final one lands just after a whitespace character; and an empty text
yields exactly one empty viewport. -/
theorem C6_viewport_partition (st : BrowserState)
    (hvs : 1 ≤ st.viewport_size)
    (hg : (S "google:").isPrefixOf (address st) = false) :
    contigFrom 0 st._page_content.length (_split_pages st).viewport_pages = true ∧
    (_split_pages st).viewport_pages ≠ [] ∧
    (∀ k, k + 1 < (_split_pages st).viewport_pages.length →
      ((_split_pages st).viewport_pages.getD k (0, 0)).2 < st._page_content.length ∧
      splitWS (st._page_content.getD
        (((_split_pages st).viewport_pages.getD k (0, 0)).2 - 1) ' ') = true) ∧
    (st._page_content = [] → (_split_pages st).viewport_pages = [(0, 0)]) := by
  unfold _split_pages
  simp only [hg, Bool.false_eq_true, if_false]
  by_cases hlen : st._page_content.length = 0
  · rw [if_pos hlen]
    have hnil : st._page_content = [] := List.length_eq_zero.mp hlen
    refine ⟨?_, by simp, ?_, fun _ => rfl⟩
    · simp [contigFrom, hlen]
    · intro k hk
      simp at hk
  · rw [if_neg hlen]
    obtain ⟨h1, h2, h3⟩ := splitWalk_spec st._page_content st.viewport_size hvs
      (st._page_content.length + 1) 0 (by omega) (by omega)
    refine ⟨h1, h2, h3, ?_⟩
    intro hnil
    rw [hnil] at hlen
    simp at hlen

/-- Witness for C6: the three-viewport split of "aaaa bbbb cc" at width 3
(boundaries after the spaces at offsets 4 and 9). -/
theorem C6_viewport_partition_witness :
    contigFrom 0 stWalkFix._page_content.length (_split_pages stWalkFix).viewport_pages
      = true ∧
    (_split_pages stWalkFix).viewport_pages ≠ [] ∧
    (∀ k, k + 1 < (_split_pages stWalkFix).viewport_pages.length →
      ((_split_pages stWalkFix).viewport_pages.getD k (0, 0)).2
        < stWalkFix._page_content.length ∧
      splitWS (stWalkFix._page_content.getD
        (((_split_pages stWalkFix).viewport_pages.getD k (0, 0)).2 - 1) ' ') = true) ∧
    (stWalkFix._page_content = [] → (_split_pages stWalkFix).viewport_pages = [(0, 0)]) :=
  C6_viewport_partition stWalkFix (by decide) (by decide)

/-! Lemmas for C9 (browser-state invariant). -/

theorem split_pages_pages_ne_nil (st : BrowserState) :
    (_split_pages st).viewport_pages ≠ [] := by
  unfold _split_pages
  by_cases hg : (S "google:").isPrefixOf (address st) = true
  · simp [hg]
  · simp only [hg, Bool.false_eq_true, if_false]
    by_cases hlen : st._page_content.length = 0
    · simp [hlen]
    · rw [if_neg hlen]
      show splitWalk st._page_content st.viewport_size 0 (st._page_content.length + 1) ≠ []
      rw [splitWalk, if_pos (Nat.pos_of_ne_zero hlen)]
      simp

theorem Inv_mk_set_page_content (st : BrowserState) (content : Str) :
    Inv (_set_page_content st content) := by
  unfold _set_page_content
  have hne := split_pages_pages_ne_nil { st with _page_content := content }
  have hpos : 0 < (_split_pages { st with _page_content := content }).viewport_pages.length :=
    List.length_pos.mpr hne
  by_cases hc : (_split_pages { st with _page_content := content }).viewport_pages.length ≤
      (_split_pages { st with _page_content := content }).viewport_current_page
  · rw [if_pos hc]
    refine ⟨hne, ?_⟩
    show (_split_pages { st with _page_content := content }).viewport_pages.length - 1 <
      (_split_pages { st with _page_content := content }).viewport_pages.length
    omega
  · rw [if_neg hc]
    exact ⟨hne, by omega⟩

theorem mem_rotIdxs_lt (s n i : Nat) (hs : s ≤ n) (h : i ∈ rotIdxs s n) : i < n := by
  unfold rotIdxs at h
  rcases List.mem_append.mp h with h2 | h2
  · have := List.mem_range'_1.mp h2
    omega
  · have := List.mem_range.mp h2
    omega

theorem _find_next_viewport_some (st : BrowserState) (q : Str) (s : Nat) :
    _find_next_viewport st (some q) s =
      if stripStr (normQuery q) = [] then none
      else (rotIdxs s st.viewport_pages.length).find? (viewportHit st (normQuery q)) := rfl

theorem find_next_viewport_lt (st : BrowserState) (q : Option Str) (s i : Nat)
    (hs : s ≤ st.viewport_pages.length)
    (h : _find_next_viewport st q s = some i) : i < st.viewport_pages.length := by
  cases q with
  | none => exact absurd h (by simp [_find_next_viewport])
  | some q2 =>
    rw [_find_next_viewport_some] at h
    by_cases hq : stripStr (normQuery q2) = []
    · rw [if_pos hq] at h
      exact absurd h (by simp)
    · rw [if_neg hq] at h
      exact mem_rotIdxs_lt s _ i hs (List.mem_of_find?_eq_some h)

theorem Inv_applyFindResult (st : BrowserState) (res : Option Nat) (h : Inv st)
    (hres : ∀ i, res = some i → i < st.viewport_pages.length) :
    Inv (applyFindResult st res).1 := by
  cases res with
  | none => exact ⟨h.1, h.2⟩
  | some i => exact ⟨h.1, hres i rfl⟩

theorem findNextStart_le (st : BrowserState) :
    findNextStart st ≤ st.viewport_pages.length := by
  unfold findNextStart
  rcases hl : st._find_on_page_last_result with _ | r
  · exact Nat.zero_le _
  · show (if st.viewport_pages.length ≤ r + 1 then 0 else r + 1) ≤ st.viewport_pages.length
    by_cases hr : st.viewport_pages.length ≤ r + 1
    · rw [if_pos hr]; omega
    · rw [if_neg hr]; omega

theorem Inv_find_next (st : BrowserState) (h : Inv st) : Inv (find_next st).1 := by
  unfold find_next
  cases st._find_on_page_query with
  | none => exact h
  | some q =>
    refine Inv_applyFindResult st _ h ?_
    intro i hi
    exact find_next_viewport_lt st (some q) (findNextStart st) i (findNextStart_le st) hi

theorem Inv_find_on_page (st : BrowserState) (q : Str) (h : Inv st) :
    Inv (find_on_page st q).1 := by
  unfold find_on_page
  by_cases hg : st._find_on_page_query = some q ∧
      st._find_on_page_last_result = some st.viewport_current_page
  · rw [if_pos hg]
    exact Inv_find_next st h
  · rw [if_neg hg]
    refine Inv_applyFindResult { st with _find_on_page_query := some q } _ ⟨h.1, h.2⟩ ?_
    intro i hi
    exact find_next_viewport_lt { st with _find_on_page_query := some q } (some q)
      st.viewport_current_page i (le_of_lt h.2) hi

theorem Inv_page_down (st : BrowserState) (h : Inv st) : Inv (page_down st) := by
  refine ⟨h.1, ?_⟩
  show min (st.viewport_current_page + 1) (st.viewport_pages.length - 1) <
    st.viewport_pages.length
  have := h.2
  omega

theorem Inv_page_up (st : BrowserState) (h : Inv st) : Inv (page_up st) := by
  refine ⟨h.1, ?_⟩
  show st.viewport_current_page - 1 < st.viewport_pages.length
  have := h.2
  omega

theorem Inv_handleFetchError (st : BrowserState) (e : PyError) (dp : Str) (h : Inv st) :
    Inv (handleFetchError st e dp).1 := by
  unfold handleFetchError
  cases e with
  | unsupportedFormatExc =>
    by_cases hdp : dp ≠ []
    · rw [if_pos hdp]
      exact Inv_mk_set_page_content _ _
    · rw [if_neg hdp]
      exact Inv_mk_set_page_content _ _
  | fileConversionExc exts =>
    by_cases hdp : dp ≠ []
    · rw [if_pos hdp]
      exact Inv_mk_set_page_content _ _
    · rw [if_neg hdp]
      exact Inv_mk_set_page_content _ _
  | fileNotFound => exact Inv_mk_set_page_content _ _
  | requestExc => exact h
  | attributeError => exact h
  | decodeError => exact h
  | outOfFuel => exact h

theorem Inv_fetchLocalFile (w : World) (st : BrowserState) (url : Str) (h : Inv st) :
    Inv (fetchLocalFile w st url).1 := by
  unfold fetchLocalFile
  rcases hcv : convert_local (w.fileAt (w.localPathOf url)) {} with e | o
  · exact Inv_handleFetchError _ e _ h
  · cases o with
    | none => exact h
    | some res => exact Inv_mk_set_page_content _ _

theorem Inv_fetchTextPage (st : BrowserState) (r : RespModel) (h : Inv st) :
    Inv (fetchTextPage st r).1 := by
  unfold fetchTextPage
  rcases hcv : convert_response r {} with e | o
  · exact Inv_handleFetchError _ e _ h
  · cases o with
    | none => exact h
    | some res => exact Inv_mk_set_page_content _ _

theorem Inv_fetchPageBody (w : World)
    (recur : BrowserState → Str → BrowserState × Option PyError)
    (hrec : ∀ st2 u, Inv st2 → Inv (recur st2 u).1)
    (st : BrowserState) (url : Str) (h : Inv st) :
    Inv (fetchPageBody w recur st url).1 := by
  unfold fetchPageBody
  by_cases hf : (S "file://").isPrefixOf url = true
  · simp only [hf, if_true]
    exact Inv_fetchLocalFile w st url h
  · simp only [hf, Bool.false_eq_true, if_false]
    cases hh : w.http url with
    | textPage r => exact Inv_fetchTextPage st r h
    | download => exact hrec st _ h
    | reqErrorNoResp content => exact Inv_mk_set_page_content _ _
    | reqErrorResp title content => exact Inv_mk_set_page_content _ _

theorem Inv_setAddressStep (w : World)
    (recur : BrowserState → Str → BrowserState × Option PyError)
    (hrec : ∀ st2 u, Inv st2 → Inv (recur st2 u).1)
    (st1 : BrowserState) (uri : Str) (fy : Option Nat) (h : Inv st1) :
    Inv (setAddressStep w recur st1 uri fy).1 := by
  unfold setAddressStep
  by_cases h1 : uri = S "about:blank"
  · rw [if_pos h1]
    exact Inv_mk_set_page_content _ _
  · rw [if_neg h1]
    by_cases h2 : (S "google:").isPrefixOf uri = true
    · simp only [h2, if_true]
      exact Inv_mk_set_page_content _ _
    · simp only [h2, Bool.false_eq_true, if_false]
      by_cases h3 : (!(S "http:").isPrefixOf uri && !(S "https:").isPrefixOf uri
          && !(S "file:").isPrefixOf uri) = true ∧ 1 < st1.history.length
      · rw [if_pos h3]
        exact Inv_fetchPageBody w recur hrec _ _ ⟨h.1, h.2⟩
      · rw [if_neg h3]
        exact Inv_fetchPageBody w recur hrec _ _ h

theorem Inv_setAddressBody_from (w : World)
    (recur : BrowserState → Str → BrowserState × Option PyError)
    (st : BrowserState) (uri : Str) (fy : Option Nat)
    (hstep : Inv (setAddressStep w recur (histAppend st uri) uri fy).1) :
    Inv (setAddressBody w recur st uri fy).1 := by
  unfold setAddressBody
  rcases hs : setAddressStep w recur (histAppend st uri) uri fy with ⟨st3, oe⟩
  rw [hs] at hstep
  cases oe with
  | none =>
    refine ⟨hstep.1, ?_⟩
    show 0 < st3.viewport_pages.length
    exact List.length_pos.mpr hstep.1
  | some e => exact hstep

theorem Inv_setAddressBody (w : World)
    (recur : BrowserState → Str → BrowserState × Option PyError)
    (hrec : ∀ st2 u, Inv st2 → Inv (recur st2 u).1)
    (st : BrowserState) (uri : Str) (fy : Option Nat) (h : Inv st) :
    Inv (setAddressBody w recur st uri fy).1 :=
  Inv_setAddressBody_from w recur st uri fy
    (Inv_setAddressStep w recur hrec (histAppend st uri) uri fy ⟨h.1, h.2⟩)

theorem Inv_set_address (w : World) :
    ∀ fuel st uri fy, Inv st → Inv (set_address w fuel st uri fy).1 := by
  intro fuel
  induction fuel with
  | zero =>
    intro st uri fy h
    exact Inv_setAddressBody w _ (fun st2 u h2 => h2) st uri fy h
  | succ f ih =>
    intro st uri fy h
    exact Inv_setAddressBody w _ (fun st2 u h2 => ih st2 u none h2) st uri fy h

theorem Inv_fetch_page (w : World) (fuel : Nat) (st : BrowserState) (url : Str)
    (h : Inv st) : Inv (_fetch_page w fuel st url).1 := by
  cases fuel with
  | zero => exact Inv_fetchPageBody w _ (fun st2 u h2 => h2) st url h
  | succ f =>
    exact Inv_fetchPageBody w _ (fun st2 u h2 => Inv_set_address w f st2 u none h2) st url h

theorem Inv_visit_page (w : World) (fuel : Nat) (st : BrowserState) (uri : Str)
    (fy : Option Nat) (h : Inv st) : Inv (visit_page w fuel st uri fy).1 := by
  unfold visit_page
  have h2 := Inv_set_address w fuel st uri fy h
  rcases hs : set_address w fuel st uri fy with ⟨st1, oe⟩
  rw [hs] at h2
  cases oe with
  | none => exact h2
  | some e => exact h2

theorem Inv_setAddressStep_blank (w : World)
    (recur : BrowserState → Str → BrowserState × Option PyError)
    (st1 : BrowserState) (fy : Option Nat) :
    Inv (setAddressStep w recur st1 (S "about:blank") fy).1 := by
  unfold setAddressStep
  rw [if_pos rfl]
  exact Inv_mk_set_page_content _ _

theorem Inv_set_address_blank (w : World) (fuel : Nat) (st : BrowserState)
    (fy : Option Nat) : Inv (set_address w fuel st (S "about:blank") fy).1 := by
  cases fuel with
  | zero =>
    exact Inv_setAddressBody_from w _ st _ fy (Inv_setAddressStep_blank w _ _ fy)
  | succ f =>
    exact Inv_setAddressBody_from w _ st _ fy (Inv_setAddressStep_blank w _ _ fy)

theorem Inv_constructBrowser (w : World) (fuel : Nat) (sp : Option Str) (vs : Nat)
    (h : (constructBrowser w fuel sp vs).2 = none) :
    Inv (constructBrowser w fuel sp vs).1 := by
  unfold constructBrowser at h ⊢
  have hstep : (constructStep w fuel (startPageOf sp) vs).2 = none →
      Inv (constructStep w fuel (startPageOf sp) vs).1 := by
    unfold constructStep
    by_cases h1 : startPageOf sp = S "about:blank"
    · rw [if_pos h1, h1]
      intro _
      exact Inv_set_address_blank w fuel (initialBrowserState vs) none
    · rw [if_neg h1]
      by_cases h2 : (S "google:").isPrefixOf (startPageOf sp) = true
      · simp only [h2, if_true]
        intro _
        have hI := Inv_mk_set_page_content
          { initialBrowserState vs with
              history := [(startPageOf sp, 0)], page_title := some (S "Search Error") }
          (S "## Search Error\n\nUnexpected error during search")
        refine ⟨hI.1, ?_⟩
        show 0 < (_set_page_content _ _).viewport_pages.length
        exact List.length_pos.mpr hI.1
      · simp only [h2, Bool.false_eq_true, if_false]
        intro hc
        exact absurd hc (by simp)
  rcases hs : constructStep w fuel (startPageOf sp) vs with ⟨st1, oe⟩
  rw [hs] at h hstep
  cases oe with
  | none =>
    have hI := hstep rfl
    exact ⟨hI.1, hI.2⟩
  | some e => simp at h

/-- C9: starting from any state satisfying the invariant (non-empty
viewport list, in-range current index), every public browser operation
preserves it, and a completed construction establishes it - so reading
the current viewport always succeeds. -/
theorem C9_invariant (w : World) (fuel : Nat) (st : BrowserState) (uri q : Str)
    (fy : Option Nat) (sp : Option Str) (vs : Nat) (h : Inv st) :
    Inv (page_down st) ∧ Inv (page_up st) ∧
    Inv (find_on_page st q).1 ∧ Inv (find_next st).1 ∧
    Inv (set_address w fuel st uri fy).1 ∧
    Inv (visit_page w fuel st uri fy).1 ∧
    ((constructBrowser w fuel sp vs).2 = none → Inv (constructBrowser w fuel sp vs).1) :=
  ⟨Inv_page_down st h, Inv_page_up st h, Inv_find_on_page st q h, Inv_find_next st h,
    Inv_set_address w fuel st uri fy h, Inv_visit_page w fuel st uri fy h,
    Inv_constructBrowser w fuel sp vs⟩

/-- Witness for C9 at a concrete state, world, address and query. -/
theorem C9_invariant_witness :
    Inv (page_down stFooBar) ∧ Inv (page_up stFooBar) ∧
    Inv (find_on_page stFooBar (S "foo")).1 ∧ Inv (find_next stFooBar).1 ∧
    Inv (set_address wFix 1 stFooBar (S "about:blank") none).1 ∧
    Inv (visit_page wFix 1 stFooBar (S "about:blank") none).1 ∧
    ((constructBrowser wFix 1 none 8192).2 = none →
      Inv (constructBrowser wFix 1 none 8192).1) :=
  C9_invariant wFix 1 stFooBar (S "about:blank") (S "foo") none none 8192
    (by constructor <;> decide)

/-- C1 (code bug): after find("foo") has matched on a page, setting a new
address (here: an http page whose text is "foo x") completes with the
viewport index reset to 0, but the search state read by find_next is NOT
cleared - set_address assigns the distinct non-underscore attributes
find_on_page_query / find_on_page_viewport instead of
_find_on_page_query / _find_on_page_last_result - so a subsequent
find_next reapplies the stale query "foo" to the new page and returns a
match, instead of returning nothing as it would with no prior query. -/
theorem C1_bug_eval :
    (set_address wFix 1 (find_on_page stFooBar (S "foo")).1 (S "http://b") none).2
      = none ∧
    (set_address wFix 1 (find_on_page stFooBar (S "foo")).1
      (S "http://b") none).1.viewport_current_page = 0 ∧
    (set_address wFix 1 (find_on_page stFooBar (S "foo")).1
      (S "http://b") none).1._find_on_page_query = some (S "foo") ∧
    (set_address wFix 1 (find_on_page stFooBar (S "foo")).1
      (S "http://b") none).1.find_on_page_query = some none ∧
    (find_next (set_address wFix 1 (find_on_page stFooBar (S "foo")).1
      (S "http://b") none).1).2 = some (S "foo x") := by
  decide

/-- C8 (code bug): visiting a file:// uri of a readable extension-less
file on which every converter declines makes convert_local return None;
_fetch_page then dereferences res.title, raising an AttributeError that
no except clause catches, so visit_page propagates an exception and
returns no viewport string instead of rendering an error page. -/
theorem C8_bug_eval :
    (visit_page wFix 1 stBlank (S "file:///x") none).2.1 = some PyError.attributeError ∧
    (visit_page wFix 1 stBlank (S "file:///x") none).2.2 = none := by
  decide

/-! Lemmas for C7 (find / find_next traversal). -/

theorem find?_eq_head?_filter {α : Type} (p : α → Bool) :
    ∀ l : List α, l.find? p = (l.filter p).head? := by
  intro l
  induction l with
  | nil => rfl
  | cons x xs ih =>
    by_cases hx : p x = true
    · rw [List.find?_cons_of_pos xs hx, List.filter_cons_of_pos hx]
      rfl
    · rw [List.find?_cons_of_neg xs hx, List.filter_cons_of_neg hx, ih]

theorem range_split (n t : Nat) (h : t ≤ n) :
    List.range n = List.range t ++ List.range' t (n - t) := by
  have h2 : (n - t) + t = n := by omega
  calc List.range n = List.range' 0 n := List.range_eq_range' n
    _ = List.range' 0 ((n - t) + t) := by rw [h2]
    _ = List.range' 0 t ++ List.range' (0 + t) (n - t) := (List.range'_append_1 0 t (n - t)).symm
    _ = List.range t ++ List.range' t (n - t) := by
        rw [Nat.zero_add, ← List.range_eq_range']

theorem js_filter_lt (P : Nat → Bool) (n t : Nat) (h : t ≤ n) :
    ((List.range n).filter P).filter (fun i => decide (i < t)) = (List.range t).filter P := by
  rw [List.filter_filter, range_split n t h, List.filter_append]
  have h1 : (List.range t).filter (fun a => decide (a < t) && P a) = (List.range t).filter P := by
    apply List.filter_congr
    intro a ha
    have ha2 : a < t := List.mem_range.mp ha
    simp [ha2]
  have h2 : (List.range' t (n - t)).filter (fun a => decide (a < t) && P a) = [] := by
    rw [List.filter_eq_nil_iff]
    intro a ha
    have ha2 := (List.mem_range'_1.mp ha).1
    simp only [Bool.and_eq_true, decide_eq_true_eq, not_and]
    intro h3
    omega
  rw [h1, h2, List.append_nil]

theorem js_filter_ge (P : Nat → Bool) (n t : Nat) (h : t ≤ n) :
    ((List.range n).filter P).filter (fun i => decide (t ≤ i)) =
      (List.range' t (n - t)).filter P := by
  rw [List.filter_filter, range_split n t h, List.filter_append]
  have h1 : (List.range t).filter (fun a => decide (t ≤ a) && P a) = [] := by
    rw [List.filter_eq_nil_iff]
    intro a ha
    have ha2 : a < t := List.mem_range.mp ha
    simp only [Bool.and_eq_true, decide_eq_true_eq, not_and]
    intro h3
    omega
  have h2 : (List.range' t (n - t)).filter (fun a => decide (t ≤ a) && P a) =
      (List.range' t (n - t)).filter P := by
    apply List.filter_congr
    intro a ha
    have ha2 := (List.mem_range'_1.mp ha).1
    simp [ha2]
  rw [h1, h2, List.nil_append]

theorem firstMatch_char (P : Nat → Bool) (n t : Nat) (h : t ≤ n) :
    (rotIdxs t n).find? P =
      (((List.range n).filter P).filter (fun i => decide (t ≤ i))).head?.or
        ((((List.range n).filter P).filter (fun i => decide (i < t))).head?) := by
  unfold rotIdxs
  rw [find?_eq_head?_filter, List.filter_append, List.head?_append]
  rw [js_filter_ge P n t h, js_filter_lt P n t h]

theorem cyc_step_inLo (P : Nat → Bool) (n c : Nat) (hc : c < n) (A2 B2 : List Nat)
    (v : Nat) (hsplit : (List.range c).filter P = A2 ++ v :: B2) :
    (rotIdxs (if n ≤ v + 1 then 0 else v + 1) n).find? P =
      (B2 ++ (((List.range' c (n - c)).filter P ++ A2) ++ [v])).head? := by
  have hjs : (List.range n).filter P =
      (A2 ++ v :: B2) ++ (List.range' c (n - c)).filter P := by
    rw [range_split n c (le_of_lt hc), List.filter_append, hsplit]
  have hsorted : ((A2 ++ v :: B2) ++ (List.range' c (n - c)).filter P).Pairwise (· < ·) := by
    rw [← hjs]
    exact (List.pairwise_lt_range n).sublist (List.filter_sublist _)
  have hvc : v < c := by
    have hv : v ∈ (List.range c).filter P := by rw [hsplit]; simp
    exact List.mem_range.mp (List.mem_of_mem_filter hv)
  have hHbd : ∀ x ∈ (List.range' c (n - c)).filter P, c ≤ x ∧ x < n := by
    intro x hx
    have := List.mem_range'_1.mp (List.mem_of_mem_filter hx)
    omega
  have hb1 := List.pairwise_append.mp hsorted
  have hb2 := List.pairwise_append.mp hb1.1
  have hA2v : ∀ x ∈ A2, x < v := fun x hx => hb2.2.2 x hx v (by simp)
  have hvB2 : ∀ x ∈ B2, v < x := (List.pairwise_cons.mp hb2.2.1).1
  rw [if_neg (by omega : ¬ n ≤ v + 1)]
  rw [firstMatch_char P n (v + 1) (by omega)]
  have e1 : A2.filter (fun i => decide (v + 1 ≤ i)) = [] := by
    rw [List.filter_eq_nil_iff]
    intro x hx
    have := hA2v x hx
    simp only [decide_eq_true_eq]
    omega
  have e2 : B2.filter (fun i => decide (v + 1 ≤ i)) = B2 := by
    rw [List.filter_eq_self]
    intro x hx
    have := hvB2 x hx
    simp only [decide_eq_true_eq]
    omega
  have e3 : ((List.range' c (n - c)).filter P).filter (fun i => decide (v + 1 ≤ i)) =
      (List.range' c (n - c)).filter P := by
    rw [List.filter_eq_self]
    intro x hx
    have := hHbd x hx
    simp only [decide_eq_true_eq]
    omega
  have f1 : A2.filter (fun i => decide (i < v + 1)) = A2 := by
    rw [List.filter_eq_self]
    intro x hx
    have := hA2v x hx
    simp only [decide_eq_true_eq]
    omega
  have f2 : B2.filter (fun i => decide (i < v + 1)) = [] := by
    rw [List.filter_eq_nil_iff]
    intro x hx
    have := hvB2 x hx
    simp only [decide_eq_true_eq]
    omega
  have f3 : ((List.range' c (n - c)).filter P).filter (fun i => decide (i < v + 1)) = [] := by
    rw [List.filter_eq_nil_iff]
    intro x hx
    have := hHbd x hx
    simp only [decide_eq_true_eq]
    omega
  have hge : ((List.range n).filter P).filter (fun i => decide (v + 1 ≤ i)) =
      B2 ++ (List.range' c (n - c)).filter P := by
    rw [hjs, List.filter_append, List.filter_append, e1,
      List.filter_cons_of_neg (by simp), e2, e3, List.nil_append]
  have hlt : ((List.range n).filter P).filter (fun i => decide (i < v + 1)) =
      A2 ++ [v] := by
    rw [hjs, List.filter_append, List.filter_append, f1,
      List.filter_cons_of_pos (by simp), f2, f3, List.append_nil]
  rw [hge, hlt]
  simp [List.head?_append, Option.or_assoc]

theorem cyc_step_inH (P : Nat → Bool) (n c : Nat) (hc : c < n) (A1 B1 : List Nat)
    (v : Nat) (hsplit : (List.range' c (n - c)).filter P = A1 ++ v :: B1) :
    (rotIdxs (if n ≤ v + 1 then 0 else v + 1) n).find? P =
      ((B1 ++ (List.range c).filter P) ++ (A1 ++ [v])).head? := by
  have hjs : (List.range n).filter P =
      (List.range c).filter P ++ (A1 ++ v :: B1) := by
    rw [range_split n c (le_of_lt hc), List.filter_append, hsplit]
  have hsorted : ((List.range c).filter P ++ (A1 ++ v :: B1)).Pairwise (· < ·) := by
    rw [← hjs]
    exact (List.pairwise_lt_range n).sublist (List.filter_sublist _)
  have hLo_lt : ∀ x ∈ (List.range c).filter P, x < c := by
    intro x hx
    exact List.mem_range.mp (List.mem_of_mem_filter hx)
  have hvbd : c ≤ v ∧ v < n := by
    have hv : v ∈ (List.range' c (n - c)).filter P := by rw [hsplit]; simp
    have := List.mem_range'_1.mp (List.mem_of_mem_filter hv)
    omega
  have hB1bd : ∀ x ∈ B1, x < n := by
    intro x hx
    have hxH : x ∈ (List.range' c (n - c)).filter P := by rw [hsplit]; simp [hx]
    have := List.mem_range'_1.mp (List.mem_of_mem_filter hxH)
    omega
  have hb1 := List.pairwise_append.mp hsorted
  have hb2 := List.pairwise_append.mp hb1.2.1
  have hA1v : ∀ x ∈ A1, x < v := fun x hx => hb2.2.2 x hx v (by simp)
  have hvB1 : ∀ x ∈ B1, v < x := (List.pairwise_cons.mp hb2.2.1).1
  by_cases hn : n ≤ v + 1
  · rw [if_pos hn]
    have hB1nil : B1 = [] := by
      cases B1 with
      | nil => rfl
      | cons x xs =>
        exfalso
        have h1 := hvB1 x (by simp)
        have h2 := hB1bd x (by simp)
        omega
    subst hB1nil
    rw [firstMatch_char P n 0 (by omega)]
    have g1 : ((List.range n).filter P).filter (fun i => decide (0 ≤ i)) =
        (List.range n).filter P := by
      rw [List.filter_eq_self]
      intro x _
      simp
    have g2 : ((List.range n).filter P).filter (fun i => decide (i < 0)) = [] := by
      rw [List.filter_eq_nil_iff]
      intro x _
      simp
    rw [g1, g2, hjs]
    simp [List.head?_append, Option.or_assoc]
  · rw [if_neg hn]
    rw [firstMatch_char P n (v + 1) (by omega)]
    have e0 : ((List.range c).filter P).filter (fun i => decide (v + 1 ≤ i)) = [] := by
      rw [List.filter_eq_nil_iff]
      intro x hx
      have := hLo_lt x hx
      simp only [decide_eq_true_eq]
      omega
    have e1 : A1.filter (fun i => decide (v + 1 ≤ i)) = [] := by
      rw [List.filter_eq_nil_iff]
      intro x hx
      have := hA1v x hx
      simp only [decide_eq_true_eq]
      omega
    have e2 : B1.filter (fun i => decide (v + 1 ≤ i)) = B1 := by
      rw [List.filter_eq_self]
      intro x hx
      have := hvB1 x hx
      simp only [decide_eq_true_eq]
      omega
    have f0 : ((List.range c).filter P).filter (fun i => decide (i < v + 1)) =
        (List.range c).filter P := by
      rw [List.filter_eq_self]
      intro x hx
      have := hLo_lt x hx
      simp only [decide_eq_true_eq]
      omega
    have f1 : A1.filter (fun i => decide (i < v + 1)) = A1 := by
      rw [List.filter_eq_self]
      intro x hx
      have := hA1v x hx
      simp only [decide_eq_true_eq]
      omega
    have f2 : B1.filter (fun i => decide (i < v + 1)) = [] := by
      rw [List.filter_eq_nil_iff]
      intro x hx
      have := hvB1 x hx
      simp only [decide_eq_true_eq]
      omega
    have hge : ((List.range n).filter P).filter (fun i => decide (v + 1 ≤ i)) = B1 := by
      rw [hjs, List.filter_append, List.filter_append, e0, e1,
        List.filter_cons_of_neg (by simp), e2, List.nil_append, List.nil_append]
    have hlt : ((List.range n).filter P).filter (fun i => decide (i < v + 1)) =
        (List.range c).filter P ++ (A1 ++ [v]) := by
      rw [hjs, List.filter_append, List.filter_append, f0, f1,
        List.filter_cons_of_pos (by simp), f2]
    rw [hge, hlt]
    simp [List.head?_append, Option.or_assoc]

theorem cyc_step (P : Nat → Bool) (n c : Nat) (hc : c < n) (A B : List Nat) (v : Nat)
    (hdec : (rotIdxs c n).filter P = A ++ v :: B) :
    (rotIdxs (if n ≤ v + 1 then 0 else v + 1) n).find? P = (B ++ (A ++ [v])).head? := by
  have hcyc : (List.range' c (n - c)).filter P ++ (List.range c).filter P = A ++ v :: B := by
    rw [← List.filter_append]
    exact hdec
  rcases List.append_eq_append_iff.mp hcyc with ⟨A2, hA, hLoSplit⟩ | ⟨c2, hHSplit, hvB⟩
  · rw [cyc_step_inLo P n c hc A2 B v hLoSplit, hA]
  · cases c2 with
    | nil =>
      rw [List.append_nil] at hHSplit
      rw [List.nil_append] at hvB
      rw [cyc_step_inLo P n c hc [] B v (by rw [← hvB]; rfl), hHSplit]
      rw [List.append_nil]
    | cons vh B1 =>
      have hv : v = vh ∧ B = B1 ++ (List.range c).filter P := by
        have := hvB
        rw [List.cons_append] at this
        exact ⟨(List.cons.injEq _ _ _ _).mp this |>.1, (List.cons.injEq _ _ _ _).mp this |>.2⟩
      obtain ⟨hv1, hv2⟩ := hv
      subst hv1
      rw [cyc_step_inH P n c hc A B1 v hHSplit, hv2]

theorem matchCycle_eq (st : BrowserState) (q : Str) :
    matchCycle st q =
      (rotIdxs st.viewport_current_page st.viewport_pages.length).filter
        (viewportHit st (normQuery q)) := rfl

theorem applyFindResult_fop (st : BrowserState) (q : Str) (i : Nat) :
    applyFindResult { st with _find_on_page_query := some q } (some i) =
      (stAt st q i, some (viewport (stAt st q i))) := rfl

theorem applyFindResult_fn (st : BrowserState) (q : Str) (v i : Nat) :
    applyFindResult (stAt st q v) (some i) =
      (stAt st q i, some (viewport (stAt st q i))) := rfl

theorem fnv_fop (st : BrowserState) (q : Str) (s : Nat) :
    _find_next_viewport { st with _find_on_page_query := some q } (some q) s =
      _find_next_viewport st (some q) s := rfl

theorem find_next_stAt (st : BrowserState) (q : Str) (v : Nat) :
    find_next (stAt st q v) =
      applyFindResult (stAt st q v)
        (_find_next_viewport st (some q)
          (if st.viewport_pages.length ≤ v + 1 then 0 else v + 1)) := rfl

theorem fnv_some (st : BrowserState) (q : Str) (s : Nat)
    (hnq : ¬ stripStr (normQuery q) = []) :
    _find_next_viewport st (some q) s =
      (rotIdxs s st.viewport_pages.length).find? (viewportHit st (normQuery q)) := by
  simp only [_find_next_viewport]
  rw [if_neg hnq]

theorem cyc_next_head (l : List Nat) (i : Nat) (hi : i < l.length) :
    (l.drop (i + 1) ++ (l.take i ++ [l.getD i 0])).head? =
      some (l.getD ((i + 1) % l.length) 0) := by
  by_cases h : i + 1 < l.length
  · rw [Nat.mod_eq_of_lt h, List.head?_append]
    have hd : (l.drop (i + 1)).head? = some (l.getD (i + 1) 0) := by
      rw [List.head?_drop, List.getD_eq_getElem l 0 h, List.getElem?_eq_getElem h]
    rw [hd]
    rfl
  · have hK : i + 1 = l.length := by omega
    rw [hK, Nat.mod_self, List.drop_length, List.nil_append]
    cases i with
    | zero => rfl
    | succ m =>
      cases l with
      | nil => exact absurd hK (by simp)
      | cons a as =>
        rw [List.take_succ_cons, List.cons_append]
        rfl

theorem findSeq_cycle (st : BrowserState) (q : Str)
    (hq0 : st._find_on_page_query = none)
    (hc : st.viewport_current_page < st.viewport_pages.length)
    (hnq : ¬ stripStr (normQuery q) = [])
    (hex : matchCycle st q ≠ []) :
    ∀ j, findSeq st q j =
      (stAt st q ((matchCycle st q).getD (j % (matchCycle st q).length) 0),
        some (viewport
          (stAt st q ((matchCycle st q).getD (j % (matchCycle st q).length) 0)))) := by
  have hK : 0 < (matchCycle st q).length := List.length_pos.mpr hex
  intro j
  induction j with
  | zero =>
    show find_on_page st q = _
    have hcond : ¬ (st._find_on_page_query = some q ∧
        st._find_on_page_last_result = some st.viewport_current_page) := by
      rw [hq0]
      rintro ⟨h1, -⟩
      exact Option.noConfusion h1
    simp only [find_on_page]
    rw [if_neg hcond, fnv_fop, fnv_some st q _ hnq]
    obtain ⟨v0, rest, hcyc0⟩ := List.exists_cons_of_ne_nil hex
    have hfind : (rotIdxs st.viewport_current_page st.viewport_pages.length).find?
        (viewportHit st (normQuery q)) = some v0 := by
      rw [find?_eq_head?_filter, ← matchCycle_eq, hcyc0]
      rfl
    rw [hfind, Nat.zero_mod, hcyc0]
    exact applyFindResult_fop st q v0
  | succ j ih =>
    have hi : j % (matchCycle st q).length < (matchCycle st q).length :=
      Nat.mod_lt j hK
    have hdec : matchCycle st q =
        (matchCycle st q).take (j % (matchCycle st q).length) ++
          (matchCycle st q).getD (j % (matchCycle st q).length) 0 ::
            (matchCycle st q).drop (j % (matchCycle st q).length + 1) := by
      conv_lhs => rw [← List.take_append_drop (j % (matchCycle st q).length) (matchCycle st q)]
      rw [List.drop_eq_getElem_cons hi, List.getD_eq_getElem (matchCycle st q) 0 hi]
    have hstep := cyc_step (viewportHit st (normQuery q)) st.viewport_pages.length
      st.viewport_current_page hc
      ((matchCycle st q).take (j % (matchCycle st q).length))
      ((matchCycle st q).drop (j % (matchCycle st q).length + 1))
      ((matchCycle st q).getD (j % (matchCycle st q).length) 0)
      ((matchCycle_eq st q) ▸ hdec)
    have hhead := cyc_next_head (matchCycle st q) (j % (matchCycle st q).length) hi
    have hmod : (j % (matchCycle st q).length + 1) % (matchCycle st q).length =
        (j + 1) % (matchCycle st q).length :=
      Nat.mod_add_mod j (matchCycle st q).length 1
    show find_next (findSeq st q j).1 = _
    rw [ih]
    show find_next (stAt st q ((matchCycle st q).getD (j % (matchCycle st q).length) 0)) = _
    rw [find_next_stAt, fnv_some st q _ hnq, hstep, hhead, hmod]
    exact applyFindResult_fn st q _ _

/-- C7: on a page whose viewport index is in range, for a query whose
normalization is non-empty and which matches at least one viewport,
find_on_page(q) followed by repeated find_next() visits exactly the matching
viewports, each exactly once per cycle, in forward order with wraparound from
the current viewport (the order of matchCycle, the forward-with-wraparound
index list filtered to matches): the state after find then j calls of
find_next sits at matchCycle[j mod K] with that viewport's content returned,
and the whole trajectory is periodic with period K = number of matches, so
every matching viewport is visited once before any repeats; find_next with no
prior query returns none and leaves the state unchanged. -/
theorem C7_find_traversal (st : BrowserState) (q : Str)
    (hq0 : st._find_on_page_query = none)
    (hc : st.viewport_current_page < st.viewport_pages.length)
    (hnq : ¬ stripStr (normQuery q) = [])
    (hex : matchCycle st q ≠ []) :
    (matchCycle st q).Nodup ∧
    (∀ i, i ∈ matchCycle st q ↔
        i < st.viewport_pages.length ∧ viewportHit st (normQuery q) i = true) ∧
    (∀ j, findSeq st q j =
        (stAt st q ((matchCycle st q).getD (j % (matchCycle st q).length) 0),
          some (viewport
            (stAt st q ((matchCycle st q).getD (j % (matchCycle st q).length) 0))))) ∧
    (∀ j, findSeq st q (j + (matchCycle st q).length) = findSeq st q j) ∧
    (∀ st2 : BrowserState, st2._find_on_page_query = none →
        find_next st2 = (st2, none)) := by
  have hmain := findSeq_cycle st q hq0 hc hnq hex
  refine ⟨?_, ?_, hmain, ?_, ?_⟩
  · rw [matchCycle_eq]
    apply List.Nodup.filter
    rw [rotIdxs, List.nodup_append]
    refine ⟨List.nodup_range' _ _, List.nodup_range _, ?_⟩
    intro a ha hb
    have h1 := List.mem_range'_1.mp ha
    have h2 := List.mem_range.mp hb
    omega
  · intro i
    rw [matchCycle_eq, List.mem_filter, rotIdxs]
    constructor
    · rintro ⟨hmem, hp⟩
      refine ⟨?_, hp⟩
      rcases List.mem_append.mp hmem with h | h
      · have := List.mem_range'_1.mp h
        omega
      · have := List.mem_range.mp h
        omega
    · rintro ⟨hlt, hp⟩
      refine ⟨?_, hp⟩
      rw [List.mem_append]
      by_cases hcase : i < st.viewport_current_page
      · right
        exact List.mem_range.mpr hcase
      · left
        rw [List.mem_range'_1]
        omega
  · intro j
    rw [hmain (j + (matchCycle st q).length), hmain j, Nat.add_mod_right]
  · intro st2 hq2
    simp only [find_next, hq2]

/-- C7 witness: the three-viewport page "foo x bar y foo z" with viewports
[0,6), [6,12), [12,17), current viewport 1 and query "foo": viewports 2 and 0
match, matchCycle is [2, 0], and the traversal theorem applies. -/
theorem C7_find_traversal_witness :
    stFind7._find_on_page_query = none ∧
    stFind7.viewport_current_page < stFind7.viewport_pages.length ∧
    ¬ stripStr (normQuery (S "foo")) = [] ∧
    matchCycle stFind7 (S "foo") ≠ [] ∧
    matchCycle stFind7 (S "foo") = [2, 0] ∧
    ((matchCycle stFind7 (S "foo")).Nodup ∧
     (∀ i, i ∈ matchCycle stFind7 (S "foo") ↔
         i < stFind7.viewport_pages.length ∧
           viewportHit stFind7 (normQuery (S "foo")) i = true) ∧
     (∀ j, findSeq stFind7 (S "foo") j =
         (stAt stFind7 (S "foo")
             ((matchCycle stFind7 (S "foo")).getD
               (j % (matchCycle stFind7 (S "foo")).length) 0),
           some (viewport
             (stAt stFind7 (S "foo")
               ((matchCycle stFind7 (S "foo")).getD
                 (j % (matchCycle stFind7 (S "foo")).length) 0))))) ∧
     (∀ j, findSeq stFind7 (S "foo") (j + (matchCycle stFind7 (S "foo")).length) =
         findSeq stFind7 (S "foo") j) ∧
     (∀ st2 : BrowserState, st2._find_on_page_query = none →
         find_next st2 = (st2, none))) :=
  ⟨by decide, by decide, by decide, by decide, by decide,
    C7_find_traversal stFind7 (S "foo") (by decide) (by decide) (by decide) (by decide)⟩

end KGoT
